import Mathlib

/-!
Verification of the multi-storey parking lot engine
(`internal/model` of prasaria/go-multistorey-parking-lot).

The Go sources are shallowly embedded: strings become `List Char`, the
per-spot / per-floor / lot structures become Lean structures, and every
mutating method becomes a function returning the (error?, new state) pair.
Locks are dropped; the sequential semantics of the lock-based code is kept.
Go's `sync.Map` directory and history maps become association lists whose
store/delete operations keep at most one binding per key, which is exactly
the observable map semantics.
-/

namespace Parking

abbrev Str := List Char

/-- `unicode.IsSpace` (used by `strings.TrimSpace`): the Unicode
White_Space code points. -/
def uniIsSpace (c : Char) : Bool :=
  decide ((9 ≤ c.toNat ∧ c.toNat ≤ 13) ∨ c.toNat = 32 ∨ c.toNat = 0x85 ∨
    c.toNat = 0xA0 ∨ c.toNat = 0x1680 ∨
    (0x2000 ≤ c.toNat ∧ c.toNat ≤ 0x200A) ∨ c.toNat = 0x2028 ∨
    c.toNat = 0x2029 ∨ c.toNat = 0x202F ∨ c.toNat = 0x205F ∨
    c.toNat = 0x3000)

/-- The `\s` character class of Go's `regexp` (RE2): `[\t\n\f\r ]`. -/
def reIsSpace (c : Char) : Bool :=
  decide (c.toNat = 9 ∨ c.toNat = 10 ∨ c.toNat = 12 ∨ c.toNat = 13 ∨
    c.toNat = 32)

/-- `strings.TrimSpace`: drop leading and trailing Unicode white space. -/
def trimSpace (l : Str) : Str :=
  ((l.dropWhile uniIsSpace).reverse.dropWhile uniIsSpace).reverse

/-- `strings.ToUpper` restricted to ASCII letters; the validated vehicle
number alphabet `[A-Za-z0-9\s-]` contains no other cased characters. -/
def upperChar (c : Char) : Char := c.toUpper

/-- One pass of `regexp \s+ -> " "` replacement: every maximal run of
`\s` characters becomes a single blank.  `prevSpace` records whether the
previous character belonged to a run already replaced. -/
def collapseAux : Bool → Str → Str
  | _, [] => []
  | prevSpace, c :: rest =>
    if reIsSpace c then
      if prevSpace then collapseAux true rest
      else ' ' :: collapseAux true rest
    else c :: collapseAux false rest

/-- `NormalizeVehicleNumber`: uppercase the trimmed string, then collapse
internal white-space runs to single blanks (vehicle.go). -/
def NormalizeVehicleNumber (l : Str) : Str :=
  collapseAux false ((trimSpace l).map upperChar)

/-- `[A-Za-z0-9]` — Go regexp character class used by the vehicle number
pattern. -/
def isAlnumChar (c : Char) : Bool := c.isAlpha || c.isDigit

/-- A character allowed after the first one: `[A-Za-z0-9\s-]`. -/
def patternChar (c : Char) : Bool := isAlnumChar c || reIsSpace c || c == '-'

/-- The anchored pattern `^[A-Za-z0-9][A-Za-z0-9\s-]*$` of vehicle.go. -/
def matchesVehiclePattern : Str → Bool
  | [] => false
  | c :: rest => isAlnumChar c && rest.all patternChar

/-- Reason recorded in an `InvalidVehicleNumber` validation error. -/
inductive VnReason where
  | empty
  | format
deriving DecidableEq, Repr

/-- The error values the embedded code can produce.  Constructors carrying
a `Code` field of Go's `ParkingError` are listed with that code in
`Err.code`; the `errors.New` sentinels of parking_spot.go and the
`fmt.Errorf` result of `Vacate` carry no code. -/
inductive Err where
  | validation (field value : Str)
  | invalidVehicleType (value : Str)
  | invalidVehicleNumber (value : Str) (reason : VnReason)
  | invalidSpotID
  | negativeCoordinate (which : Str)
  | vehicleAlreadyParked (number spotID : Str)
  | vehicleNotFound (number : Str)
  | noSpace (vehicleType : Str)
  | invalidOperation (op reason : Str)
  | spotInactive
  | spotAlreadyOccupied
  | spotNotOccupied
  | vacateMismatch (occupant given : Str)
  | wrapped (code : Str) (inner : Err)
  | internal (msg : Str)
deriving DecidableEq, Repr

/-- The `Code` field of the underlying `ParkingError`, when the Go error
value is built on one; `none` for plain `errors.New` sentinels, for the
`fmt.Errorf` mismatch error of `Vacate`, and for the raw negative-bound
errors of `ParseSpotID`.  `errors.Is`-style kind dispatch in the CLI layer
observes exactly this. -/
def Err.code : Err → Option Str
  | .validation _ _ => some "INVALID_INPUT".toList
  | .invalidVehicleType _ => some "INVALID_VEHICLE_TYPE".toList
  | .invalidVehicleNumber _ _ => some "INVALID_VEHICLE_NUMBER".toList
  | .invalidSpotID => none
  | .negativeCoordinate _ => none
  | .vehicleAlreadyParked _ _ => some "VEHICLE_ALREADY_PARKED".toList
  | .vehicleNotFound _ => some "VEHICLE_NOT_FOUND".toList
  | .noSpace _ => some "NO_SPACE_AVAILABLE".toList
  | .invalidOperation _ _ => some "INVALID_OPERATION".toList
  | .spotInactive => none
  | .spotAlreadyOccupied => none
  | .spotNotOccupied => none
  | .vacateMismatch _ _ => none
  | .wrapped code _ => some code
  | .internal _ => none

instance {ε α : Type} [DecidableEq ε] [DecidableEq α] :
    DecidableEq (Except ε α) := fun x y =>
  match x, y with
  | .error a, .error b =>
    if h : a = b then .isTrue (by rw [h])
    else .isFalse (fun hc => h (by injection hc))
  | .ok a, .ok b =>
    if h : a = b then .isTrue (by rw [h])
    else .isFalse (fun hc => h (by injection hc))
  | .error a, .ok b => .isFalse (fun hc => Except.noConfusion hc)
  | .ok a, .error b => .isFalse (fun hc => Except.noConfusion hc)

/-- `ValidateVehicleNumber` (vehicle.go): empty after trimming, then the
anchored pattern.  `none` means valid. -/
def ValidateVehicleNumber (l : Str) : Option Err :=
  if trimSpace l = [] then some (.invalidVehicleNumber l .empty)
  else if matchesVehiclePattern l then none
  else some (.invalidVehicleNumber l .format)

/-! ### Decimal printing (`fmt.Sprintf "%d"` on non-negative ints) and the
`fmt.Sscanf "%d-%d-%d"` scanner used by `GetSpotID` / `ParseSpotID`. -/

/-- Digit-by-digit rendering, least significant digit extracted first and
appended last; `fuel` bounds the recursion depth structurally. -/
def natToDecAux (fuel n : Nat) : Str :=
  match fuel with
  | 0 => []
  | fuel + 1 =>
    if n = 0 then [] else natToDecAux fuel (n / 10) ++ [Nat.digitChar (n % 10)]

/-- Decimal rendering of a natural number, most significant digit first,
as `fmt.Sprintf("%d", n)` prints it. -/
def natToDec (n : Nat) : Str :=
  if n = 0 then ['0'] else natToDecAux n n

/-- The spot ID wire string `"{floor}-{row}-{column}"` (GetSpotID). -/
def spotIDChars (f r c : Nat) : Str :=
  natToDec f ++ '-' :: (natToDec r ++ '-' :: natToDec c)

/-- Numeric value of a decimal digit string (most significant first). -/
def digitStrVal (l : Str) : Nat :=
  l.foldl (fun a c => 10 * a + (c.toNat - 48)) 0

/-- The white-space table of Go's `fmt` scanner. -/
def fmtIsSpace (c : Char) : Bool :=
  decide ((0x9 ≤ c.toNat ∧ c.toNat ≤ 0xD) ∨ c.toNat = 0x20 ∨
    c.toNat = 0x85 ∨ c.toNat = 0xA0 ∨ c.toNat = 0x1680 ∨
    (0x2000 ≤ c.toNat ∧ c.toNat ≤ 0x200A) ∨
    (0x2028 ≤ c.toNat ∧ c.toNat ≤ 0x2029) ∨ c.toNat = 0x202F ∨
    c.toNat = 0x205F ∨ c.toNat = 0x3000)

/-- `ss.SkipSpace` under `Sscanf` (`nlIsSpace = false`): skip `fmt`
white space, but a newline is an error (`none`).  A `'\r'` is skipped and
a following `'\n'` is then hit by the next iteration, erroring as in Go. -/
def goSkipSpace : Str → Option Str
  | [] => some []
  | c :: rest =>
    if c = '\n' then none
    else if fmtIsSpace c then goSkipSpace rest
    else some (c :: rest)

/-- Consume a maximal run of decimal digits, accumulating their value. -/
def scanDigitsAux (acc : Nat) : Str → Nat × Str
  | [] => (acc, [])
  | c :: rest =>
    if c.isDigit then scanDigitsAux (10 * acc + (c.toNat - 48)) rest
    else (acc, c :: rest)

/-- A nonempty digit run, or failure. -/
def scanDigits (l : Str) : Option (Nat × Str) :=
  match l with
  | c :: _ => if c.isDigit then some (scanDigitsAux 0 l) else none
  | [] => none

/-- The `%d` verb of `Sscanf`: skip white space (newline errors), accept an
optional sign, then require at least one decimal digit.  The collected
token goes through `strconv.ParseInt(tok, 10, 64)`, which fails with a
range error (`none` here) when the value leaves the 64-bit range
`[-2^63, 2^63 - 1]`. -/
def scanSigned : Str → Option (Int × Str)
  | [] => none
  | c :: rest =>
    if c = '-' then
      (scanDigits rest).bind fun p =>
        if p.1 ≤ 2 ^ 63 then some (-(p.1 : Int), p.2) else none
    else if c = '+' then
      (scanDigits rest).bind fun p =>
        if p.1 < 2 ^ 63 then some ((p.1 : Int), p.2) else none
    else
      (scanDigits (c :: rest)).bind fun p =>
        if p.1 < 2 ^ 63 then some ((p.1 : Int), p.2) else none

def scanGoInt (l : Str) : Option (Int × Str) :=
  (goSkipSpace l).bind scanSigned

/-- A literal character of the format string must match the next input
character exactly (`ss.advance`). -/
def expectDash : Str → Option Str
  | [] => none
  | c :: rest => if c = '-' then some rest else none

/-- `fmt.Sscanf(s, "%d-%d-%d", ...)`: three integers separated by literal
dashes.  Like Go, input remaining after the last verb is ignored. -/
def sscanfDDD (s : Str) : Option (Int × Int × Int) :=
  (scanGoInt s).bind fun p1 =>
  (expectDash p1.2).bind fun r2 =>
  (scanGoInt r2).bind fun p2 =>
  (expectDash p2.2).bind fun r4 =>
  (scanGoInt r4).map fun p3 => (p1.1, p2.1, p3.1)

/-- `ParseSpotID` (parking_spot.go): scan via `Sscanf`, fail with the
`ErrInvalidSpotID` sentinel on a scan error, then reject negative
components with plain errors. -/
def ParseSpotID (s : Str) : Except Err (Nat × Nat × Nat) :=
  match sscanfDDD s with
  | none => .error .invalidSpotID
  | some (f, r, c) =>
    if f < 0 then .error (.negativeCoordinate "floor".toList)
    else if r < 0 then .error (.negativeCoordinate "row".toList)
    else if c < 0 then .error (.negativeCoordinate "column".toList)
    else .ok (f.toNat, r.toNat, c.toNat)

/-! ### Spot and vehicle types (spot_type.go, vehicle_type.go). -/

inductive SpotType where
  | bicycle
  | motorcycle
  | automobile
  | inactive
deriving DecidableEq, Repr

def SpotType.IsActive : SpotType → Bool
  | .inactive => false
  | _ => true

inductive VehicleType where
  | bicycle
  | motorcycle
  | automobile
deriving DecidableEq, Repr

/-- The string value of the `VehicleType` constant. -/
def VehicleType.str : VehicleType → Str
  | .bicycle => "BICYCLE".toList
  | .motorcycle => "MOTORCYCLE".toList
  | .automobile => "AUTOMOBILE".toList

/-- Strict one-to-one compatibility (spot_type.go `CanParkVehicleType`). -/
def SpotType.CanParkVehicleType : SpotType → VehicleType → Bool
  | .bicycle, .bicycle => true
  | .motorcycle, .motorcycle => true
  | .automobile, .automobile => true
  | _, _ => false

/-! ### ParkingSpot (parking_spot.go).  Mutating methods return the
`(error?, new state)` pair; on error the returned state is whatever the
method body left behind (the theorems show it is the input). -/

structure ParkingSpot where
  type : SpotType
  floor : Nat
  row : Nat
  column : Nat
  isOccupied : Bool
  vehicleNumber : Str
deriving DecidableEq, Repr

def ParkingSpot.GetSpotID (s : ParkingSpot) : Str :=
  spotIDChars s.floor s.row s.column

/-- `CanPark`: active, unoccupied, and type-compatible. -/
def ParkingSpot.CanPark (s : ParkingSpot) (vt : VehicleType) : Bool :=
  if !s.type.IsActive || s.isOccupied then false
  else s.type.CanParkVehicleType vt

/-- `Occupy`: inactive / occupied / invalid-number checks in source order,
then set occupied and the normalized number. -/
def ParkingSpot.Occupy (s : ParkingSpot) (num : Str) : Option Err × ParkingSpot :=
  if !s.type.IsActive then (some .spotInactive, s)
  else if s.isOccupied then (some .spotAlreadyOccupied, s)
  else match ValidateVehicleNumber num with
    | some e => (some e, s)
    | none =>
      (none, { s with isOccupied := true,
                      vehicleNumber := NormalizeVehicleNumber num })

/-- `Vacate`: inactive / unoccupied checks, then the occupant comparison
against the normalized number; the mismatch failure is a plain
`fmt.Errorf`, not a `ParkingError`. -/
def ParkingSpot.Vacate (s : ParkingSpot) (num : Str) : Option Err × ParkingSpot :=
  if !s.type.IsActive then (some .spotInactive, s)
  else if !s.isOccupied then (some .spotNotOccupied, s)
  else if NormalizeVehicleNumber num ≠ s.vehicleNumber then
    (some (.vacateMismatch s.vehicleNumber (NormalizeVehicleNumber num)), s)
  else (none, { s with isOccupied := false, vehicleNumber := [] })

/-! ### Layout generation (`NewSpotLayout`). -/

/-- The per-cell type assignment of `NewSpotLayout`'s triple loop: the
degenerate table for `rows == 1 && columns < 4`, otherwise pillars at
`(r%7 == 0) && (c%7 ∈ {0,1})`, then the fraction pattern with the
bicycle band `c < columns/4` and the motorcycle band `c < columns/2`. -/
def layoutCell (rows cols f r c : Nat) : SpotType :=
  if rows = 1 ∧ cols < 4 then
    if cols = 1 then
      if f % 3 = 0 then .bicycle
      else if f % 3 = 1 then .motorcycle
      else .automobile
    else if cols = 2 then
      if c = 0 then
        if f % 2 = 0 then .bicycle else .motorcycle
      else
        if f % 2 = 0 then .automobile else .bicycle
    else
      if c = 0 then .bicycle
      else if c = 1 then .motorcycle
      else .automobile
  else
    if r % 7 = 0 ∧ (c % 7 = 0 ∨ c % 7 = 1) then .inactive
    else if c < cols / 4 then .bicycle
    else if c < cols / 2 then .motorcycle
    else .automobile

abbrev Layout := List (List (List SpotType))

/-- The layout before the post-generation patch. -/
def buildLayout (floors rows cols : Nat) : Layout :=
  (List.range floors).map fun f =>
    (List.range rows).map fun r =>
      (List.range cols).map fun c => layoutCell rows cols f r c

/-- In-place update of one element through a function; out-of-range
indices leave the list unchanged. -/
def setIn (l : List α) (i : Nat) (g : α → α) : List α :=
  match l, i with
  | [], _ => []
  | x :: t, 0 => g x :: t
  | x :: t, i + 1 => x :: setIn t i g

/-- `SpotMap[f][r][c] = t`. -/
def set3 (L : Layout) (f r c : Nat) (t : SpotType) : Layout :=
  setIn L f fun P => setIn P r fun row => setIn row c fun _ => t

/-- `CountSpotsByType` restricted to one type. -/
def countType (L : Layout) (t : SpotType) : Nat :=
  (L.map fun P => (P.map fun row => row.count t).sum).sum

/-- The "ensure at least one of each active type" patch at the end of
`NewSpotLayout`, with the source's case split on the column count. -/
def forcePatch (floors rows cols : Nat) (L : Layout) : Layout :=
  if countType L .bicycle = 0 ∨ countType L .motorcycle = 0 ∨
      countType L .automobile = 0 then
    if 0 < floors ∧ 0 < rows ∧ 3 ≤ cols then
      set3 (set3 (set3 L 0 0 0 .bicycle) 0 0 1 .motorcycle) 0 0 2 .automobile
    else if 0 < floors ∧ 0 < rows ∧ cols = 2 then
      let L1 := set3 (set3 L 0 0 0 .bicycle) 0 0 1 .motorcycle
      if 1 < rows then set3 L1 0 1 0 .automobile
      else if 1 < floors then set3 L1 1 0 0 .automobile
      else L1
    else if 0 < floors ∧ 0 < rows ∧ cols = 1 then
      let L1 := set3 L 0 0 0 .bicycle
      if 1 < rows then
        let L2 := set3 L1 0 1 0 .motorcycle
        if 2 < rows then set3 L2 0 2 0 .automobile
        else if 1 < floors then set3 L2 1 0 0 .automobile
        else L2
      else if 1 < floors then
        let L2 := set3 L1 1 0 0 .motorcycle
        if 2 < floors then set3 L2 2 0 0 .automobile
        else L2
      else L1
    else L
  else L

/-- `NewSpotLayout` (the layout generator): dimension validation, the
pattern loops, then the patch. -/
def NewSpotLayout (floors rows cols : Nat) : Except Err Layout :=
  if floors < 1 ∨ 8 < floors then
    .error (.validation "floors".toList (natToDec floors))
  else if rows < 1 ∨ 1000 < rows then
    .error (.validation "rows".toList (natToDec rows))
  else if cols < 1 ∨ 1000 < cols then
    .error (.validation "columns".toList (natToDec cols))
  else .ok (forcePatch floors rows cols (buildLayout floors rows cols))

/-! ### ParkingFloor (parking_floor.go). -/

structure ParkingFloor where
  floorNumber : Nat
  spots : List (List ParkingSpot)
  numRows : Nat
  numCols : Nat
deriving DecidableEq, Repr

/-- `CreateParkingFloor` with an explicit spot-type grid: dimension and
shape validation, then a grid of fresh spots carrying their coordinates.
`NewParkingSpot`'s own checks (valid type, non-negative coordinates) hold
by construction here. -/
def CreateParkingFloor (i rows cols : Nat) (types : List (List SpotType)) :
    Except Err ParkingFloor :=
  if rows = 0 ∨ 1000 < rows then .error (.validation "rows".toList (natToDec rows))
  else if cols = 0 ∨ 1000 < cols then .error (.validation "columns".toList (natToDec cols))
  else if types.length ≠ rows then .error (.validation "spotTypes".toList [])
  else if !(types.all fun row => row.length = cols) then
    .error (.validation "spotTypes".toList [])
  else .ok
    { floorNumber := i
      numRows := rows
      numCols := cols
      spots := types.enum.map fun p =>
        p.2.enum.map fun q =>
          { type := q.2, floor := i, row := p.1, column := q.1,
            isOccupied := false, vehicleNumber := [] } }

/-- `GetSpot`: bounds-check against the stored dimensions, then index.
The `internal` branch (index inside the stored dimensions but outside the
actual grid) cannot occur for constructed floors; in Go it would panic. -/
def ParkingFloor.GetSpot (f : ParkingFloor) (row col : Nat) :
    Except Err ParkingSpot :=
  if f.numRows ≤ row then .error (.validation "row".toList (natToDec row))
  else if f.numCols ≤ col then .error (.validation "column".toList (natToDec col))
  else match (f.spots[row]?).bind fun r => r[col]? with
    | some s => .ok s
    | none => .error (.internal "grid".toList)

/-- `GetAvailableSpots`: all spots satisfying `CanPark`, row-major. -/
def ParkingFloor.GetAvailableSpots (f : ParkingFloor) (vt : VehicleType) :
    List ParkingSpot :=
  (f.spots.map fun row => row.filter fun s => s.CanPark vt).flatten

def ParkingFloor.GetOccupiedSpotCount (f : ParkingFloor) : Nat :=
  (f.spots.map fun row => row.countP fun s => s.isOccupied).sum

/-! ### The directory / history maps.  Go's `sync.Map` keyed by the
normalized number: `Load` finds the binding, `Store` replaces it,
`Delete` removes it. -/

def mapLoad (k : Str) (m : List (Str × α)) : Option α :=
  (m.find? fun p => p.1 == k).map fun p => p.2

def mapStore (k : Str) (v : α) (m : List (Str × α)) : List (Str × α) :=
  (k, v) :: m.filter fun p => p.1 ≠ k

def mapDelete (k : Str) (m : List (Str × α)) : List (Str × α) :=
  m.filter fun p => p.1 ≠ k

/-! ### Vehicle history (vehicle_history.go).  Wall-clock timestamps are
abstracted away: a record keeps its spot ID and whether `UnparkedAt` has
been set. -/

structure Vehicle where
  type : VehicleType
  number : Str
deriving DecidableEq, Repr

/-- `NewVehicle`: validation, then the normalized number. -/
def NewVehicle (vt : VehicleType) (num : Str) : Option Vehicle :=
  match ValidateVehicleNumber num with
  | some _ => none
  | none => some { type := vt, number := NormalizeVehicleNumber num }

structure ParkingRecord where
  spotID : Str
  complete : Bool
deriving DecidableEq, Repr

structure VehicleHistory where
  vehicle : Option Vehicle
  records : List ParkingRecord
deriving DecidableEq, Repr

def VehicleHistory.AddParkingRecord (h : VehicleHistory) (sid : Str) :
    VehicleHistory :=
  { h with records := h.records ++ [{ spotID := sid, complete := false }] }

def VehicleHistory.CompleteLastParkingRecord (h : VehicleHistory) :
    Option Err × VehicleHistory :=
  match h.records.getLast? with
  | none => (some (.invalidOperation "completeRecord".toList
      "no parking records exist for this vehicle".toList), h)
  | some r =>
    if r.complete then
      (some (.invalidOperation "completeRecord".toList
        "last record is already complete".toList), h)
    else (none, { h with records := h.records.dropLast ++ [{ r with complete := true }] })

def VehicleHistory.GetLastSpotID (h : VehicleHistory) : Str :=
  match h.records.getLast? with
  | none => []
  | some r => r.spotID

/-! ### ParkingLot (parking_lot.go). -/

structure ParkingLot where
  name : Str
  floors : List ParkingFloor
  parkedVehicles : List (Str × Str)
  vehicleHistory : List (Str × VehicleHistory)
deriving DecidableEq, Repr

instance : Inhabited ParkingLot := ⟨⟨[], [], [], []⟩⟩

/-- `NewParkingLot`: at least one floor, at most eight, distinct floor
numbers. -/
def NewParkingLot (name : Str) (floors : List ParkingFloor) :
    Except Err ParkingLot :=
  if floors.length = 0 then .error (.validation "floors".toList "[]".toList)
  else if 8 < floors.length then
    .error (.validation "floors".toList (natToDec floors.length))
  else if !(floors.map fun f => f.floorNumber).Nodup then
    .error (.validation "floors".toList [])
  else .ok { name := name, floors := floors, parkedVehicles := [], vehicleHistory := [] }

/-- `CreateParkingLot`: dimension checks, the layout, one floor per layout
plane (floor `i` gets `SpotMap[i]`), then `NewParkingLot`. -/
def CreateParkingLot (name : Str) (numFloors rows cols : Nat) :
    Except Err ParkingLot :=
  if numFloors < 1 ∨ 8 < numFloors then
    .error (.validation "numFloors".toList (natToDec numFloors))
  else if rows < 1 ∨ 1000 < rows then
    .error (.validation "rows".toList (natToDec rows))
  else if cols < 1 ∨ 1000 < cols then
    .error (.validation "columns".toList (natToDec cols))
  else
    (NewSpotLayout numFloors rows cols).bind fun L =>
    (L.enum.mapM fun p => CreateParkingFloor p.1 rows cols p.2).bind fun floors =>
    NewParkingLot name floors

/-- `GetFloor`: first floor with the given number. -/
def ParkingLot.GetFloor (p : ParkingLot) (fn : Nat) : Except Err ParkingFloor :=
  match p.floors.find? fun f => f.floorNumber == fn with
  | some f => .ok f
  | none => .error (.validation "floorNum".toList (natToDec fn))

def ParkingLot.GetSpot (p : ParkingLot) (fn row col : Nat) :
    Except Err ParkingSpot :=
  (p.GetFloor fn).bind fun f => f.GetSpot row col

def ParkingLot.GetSpotByID (p : ParkingLot) (sid : Str) :
    Except Err ParkingSpot :=
  (ParseSpotID sid).bind fun t => p.GetSpot t.1 t.2.1 t.2.2

def ParkingLot.GetOccupiedSpotCount (p : ParkingLot) : Nat :=
  (p.floors.map fun f => f.GetOccupiedSpotCount).sum

def ParkingLot.GetParkedVehicleCount (p : ParkingLot) : Nat :=
  p.parkedVehicles.length

/-! The first-fit scan of `Park`: floors in slice order, and on each floor
the head of `GetAvailableSpots`, i.e. the first row-major cell whose spot
satisfies `CanPark`.  The scan is phrased on grid indices because the Go
code's `*ParkingSpot` pointer identifies exactly one grid cell. -/

def rowFirstAvail (vt : VehicleType) : List ParkingSpot → Option Nat
  | [] => none
  | s :: rest =>
    if s.CanPark vt then some 0
    else (rowFirstAvail vt rest).map fun c => c + 1

def gridFirstAvail (vt : VehicleType) : List (List ParkingSpot) → Option (Nat × Nat)
  | [] => none
  | row :: rest =>
    match rowFirstAvail vt row with
    | some c => some (0, c)
    | none => (gridFirstAvail vt rest).map fun p => (p.1 + 1, p.2)

def lotFirstAvail (vt : VehicleType) : List ParkingFloor → Option (Nat × Nat × Nat)
  | [] => none
  | f :: rest =>
    match gridFirstAvail vt f.spots with
    | some p => some (0, p)
    | none => (lotFirstAvail vt rest).map fun q => (q.1 + 1, q.2)

/-- Raw cell access by floor-list index and grid position. -/
def spotAtIdx (p : ParkingLot) (i r c : Nat) : Option ParkingSpot :=
  (p.floors[i]?).bind fun f => (f.spots[r]?).bind fun row => row[c]?

/-- Write one grid cell, locating the floor by its list index. -/
def updateSpotIdx (p : ParkingLot) (i r c : Nat) (s : ParkingSpot) : ParkingLot :=
  { p with floors := setIn p.floors i fun f =>
      { f with spots := setIn f.spots r fun row => setIn row c fun _ => s } }

/-- Write one grid cell, locating the floor as `GetFloor` does (first
floor with the given number) — the write-back of `Unpark`'s `Vacate`. -/
def updateSpotByFloorNum (p : ParkingLot) (fn r c : Nat) (s : ParkingSpot) :
    ParkingLot :=
  { p with floors := updateFirstFloor p.floors fn fun f =>
      { f with spots := setIn f.spots r fun row => setIn row c fun _ => s } }
where
  updateFirstFloor : List ParkingFloor → Nat → (ParkingFloor → ParkingFloor) →
      List ParkingFloor
    | [], _, _ => []
    | f :: t, fn, g =>
      if f.floorNumber = fn then g f :: t else f :: updateFirstFloor t fn g

/-- The tail of `Park` beyond the scan: occupy the candidate cell of the
*current* state (the pointer obtained from the scan), then record the
directory entry and the history record.  On an occupy failure the error is
wrapped as `OCCUPATION_ERROR` and surfaced — the source does not rescan. -/
def parkCommitPhase (p : ParkingLot) (vt : VehicleType) (n : Str)
    (cand : Nat × Nat × Nat) : Except Err Str × ParkingLot :=
  match spotAtIdx p cand.1 cand.2.1 cand.2.2 with
  | none => (.error (.internal "grid".toList), p)
  | some spot =>
    match spot.Occupy n with
    | (some e, _) => (.error (.wrapped "OCCUPATION_ERROR".toList e), p)
    | (none, spot2) =>
      let p2 := updateSpotIdx p cand.1 cand.2.1 cand.2.2 spot2
      let sid := spot2.GetSpotID
      let p3 := { p2 with parkedVehicles := mapStore n sid p2.parkedVehicles }
      let hist : VehicleHistory :=
        match mapLoad n p3.vehicleHistory with
        | none => { vehicle := NewVehicle vt n, records := [] }
        | some h => h
      (.ok sid,
        { p3 with vehicleHistory := mapStore n (hist.AddParkingRecord sid) p3.vehicleHistory })

/-- `Park` (parking_lot.go): the `vehicleType` string check cannot fail on
the enumerated type; validate and normalize the number, reject an already
parked vehicle, scan, then commit. -/
def ParkingLot.Park (p : ParkingLot) (vt : VehicleType) (num : Str) :
    Except Err Str × ParkingLot :=
  match ValidateVehicleNumber num with
  | some e => (.error e, p)
  | none =>
    let n := NormalizeVehicleNumber num
    match mapLoad n p.parkedVehicles with
    | some sid => (.error (.vehicleAlreadyParked num sid), p)
    | none =>
      match lotFirstAvail vt p.floors with
      | none => (.error (.noSpace vt.str), p)
      | some cand => parkCommitPhase p vt n cand

/-- `Park` with a racing operation committing between the scan (which ran
on `p`) and the occupy (which acts, through the scanned pointer, on the
interfered state `mid p`).  `mid = id` is exactly `Park`. -/
def ParkingLot.ParkRaced (p : ParkingLot) (vt : VehicleType) (num : Str)
    (mid : ParkingLot → ParkingLot) : Except Err Str × ParkingLot :=
  match ValidateVehicleNumber num with
  | some e => (.error e, p)
  | none =>
    let n := NormalizeVehicleNumber num
    match mapLoad n p.parkedVehicles with
    | some sid => (.error (.vehicleAlreadyParked num sid), p)
    | none =>
      match lotFirstAvail vt p.floors with
      | none => (.error (.noSpace vt.str), p)
      | some cand => parkCommitPhase (mid p) vt n cand

/-- `Unpark` (parking_lot.go): validate, directory lookup, spot-ID
comparison, resolve, vacate, delete the entry, complete the last history
record (a failure there is logged and ignored). -/
def ParkingLot.Unpark (p : ParkingLot) (spotID num : Str) :
    Option Err × ParkingLot :=
  match ValidateVehicleNumber num with
  | some e => (some e, p)
  | none =>
    let n := NormalizeVehicleNumber num
    match mapLoad n p.parkedVehicles with
    | none => (some (.vehicleNotFound num), p)
    | some currentSid =>
      if currentSid ≠ spotID then
        (some (.invalidOperation "unpark".toList
          "vehicle is parked at a different spot".toList), p)
      else
        match p.GetSpotByID spotID with
        | .error e => (some (.wrapped "RETRIEVAL_ERROR".toList e), p)
        | .ok spot =>
          match spot.Vacate n with
          | (some e, _) => (some (.wrapped "VACATION_ERROR".toList e), p)
          | (none, spot2) =>
            let p2 :=
              match ParseSpotID spotID with
              | .ok t => updateSpotByFloorNum p t.1 t.2.1 t.2.2 spot2
              | .error _ => p
            let p3 := { p2 with parkedVehicles := mapDelete n p2.parkedVehicles }
            let p4 :=
              match mapLoad n p3.vehicleHistory with
              | some h =>
                { p3 with vehicleHistory :=
                    mapStore n h.CompleteLastParkingRecord.2 p3.vehicleHistory }
              | none => p3
            (none, p4)

/-- `Reset`: force-vacate every occupied spot (the vacate of an occupied
inactive spot fails and is ignored, leaving it as is) and clear both
maps. -/
def ParkingLot.Reset (p : ParkingLot) : ParkingLot :=
  { p with
    floors := p.floors.map fun f =>
      { f with spots := f.spots.map fun row => row.map fun s =>
          if s.isOccupied then (s.Vacate s.vehicleNumber).2 else s }
    parkedVehicles := []
    vehicleHistory := [] }

/-- `SearchVehicle`: validate, then the directory, then the last history
spot ID. -/
def ParkingLot.SearchVehicle (p : ParkingLot) (num : Str) :
    Except Err (Str × Bool) :=
  match ValidateVehicleNumber num with
  | some e => .error e
  | none =>
    let n := NormalizeVehicleNumber num
    match mapLoad n p.parkedVehicles with
    | some sid => .ok (sid, true)
    | none =>
      match mapLoad n p.vehicleHistory with
      | none => .error (.vehicleNotFound num)
      | some h =>
        if h.GetLastSpotID = [] then .error (.vehicleNotFound num)
        else .ok (h.GetLastSpotID, false)

/-- The states reachable from `CreateParkingLot` by `Park` / `Unpark` /
`Reset`. -/
inductive Reachable : ParkingLot → Prop where
  | created (name : Str) (nf rows cols : Nat) (lot : ParkingLot) :
      CreateParkingLot name nf rows cols = .ok lot → Reachable lot
  | park (lot : ParkingLot) (vt : VehicleType) (num : Str) :
      Reachable lot → Reachable (lot.Park vt num).2
  | unpark (lot : ParkingLot) (sid num : Str) :
      Reachable lot → Reachable (lot.Unpark sid num).2
  | reset (lot : ParkingLot) :
      Reachable lot → Reachable lot.Reset

/-- Structural well-formedness of the floor stored at list position `i`:
its number is `i`, the stored dimensions match the grid, and every spot
carries the coordinates of its cell.  `CreateParkingLot` establishes this
and every operation preserves it. -/
def WFFloorAt (i : Nat) (f : ParkingFloor) : Prop :=
  f.floorNumber = i ∧
  f.spots.length = f.numRows ∧
  (∀ (r : Nat) (row : List ParkingSpot), f.spots[r]? = some row →
    row.length = f.numCols) ∧
  (∀ (r c : Nat) (s : ParkingSpot),
    ((f.spots[r]?).bind fun row => row[c]?) = some s →
    s.floor = i ∧ s.row = r ∧ s.column = c)

def WFStruct (p : ParkingLot) : Prop :=
  ∀ (i : Nat) (f : ParkingFloor), p.floors[i]? = some f → WFFloorAt i f

/-- The invariant of reachable lot states: structure is well formed, the
directory is keyed by normalized numbers pointing at occupied spots whose
occupant matches, every occupied spot is indexed by the directory, and the
occupied-spot count equals the directory size. -/
structure Inv (p : ParkingLot) : Prop where
  wf : WFStruct p
  dirNodup : (p.parkedVehicles.map fun q => q.1).Nodup
  dirSound : ∀ (v s : Str), (v, s) ∈ p.parkedVehicles →
    NormalizeVehicleNumber v = v ∧
    ∃ (i r c : Nat) (spot : ParkingSpot), s = spotIDChars i r c ∧
      spotAtIdx p i r c = some spot ∧
      spot.isOccupied = true ∧ spot.vehicleNumber = v
  occSound : ∀ (i r c : Nat) (spot : ParkingSpot),
    spotAtIdx p i r c = some spot → spot.isOccupied = true →
      spot.type.IsActive = true ∧
      mapLoad spot.vehicleNumber p.parkedVehicles = some (spotIDChars i r c)
  count : p.GetOccupiedSpotCount = p.parkedVehicles.length
  small : ∀ (i r c : Nat) (spot : ParkingSpot),
    spotAtIdx p i r c = some spot →
    i < 2 ^ 63 ∧ r < 2 ^ 63 ∧ c < 2 ^ 63

/-! ### Spec-side notions used to state the claims. -/

/-- Lexicographic order on (floor, row, column): lowest floor, then lowest
row, then lowest column. -/
def lexLE3 (a b : Nat × Nat × Nat) : Prop :=
  a.1 < b.1 ∨ (a.1 = b.1 ∧ (a.2.1 < b.2.1 ∨ (a.2.1 = b.2.1 ∧ a.2.2 ≤ b.2.2)))

/-- A nonempty string of decimal digits. -/
def isDigitStr (l : Str) : Bool :=
  decide (l ≠ []) && l.all fun c => c.isDigit

/-- The exact spot-ID wire form of the spec: three dash-separated
non-negative decimal integers, nothing else. -/
def exactSpotIDForm (s : Str) : Prop :=
  ∃ d1 d2 d3 : Str, isDigitStr d1 ∧ isDigitStr d2 ∧ isDigitStr d3 ∧
    s = d1 ++ '-' :: (d2 ++ '-' :: d3)

/-- Cell access in a generated layout. -/
def layoutGet (L : Layout) (f r c : Nat) : Option SpotType :=
  (L[f]?).bind fun P => (P[r]?).bind fun row => row[c]?

/-- The fraction pattern as the spec's sentence words it: first
`⌊cols/4⌋` columns bicycle, the *next `⌊cols/4⌋`* columns motorcycle,
remainder automobile, pillar cells inactive. -/
def specFractionPattern (cols r c : Nat) : SpotType :=
  if r % 7 = 0 ∧ (c % 7 = 0 ∨ c % 7 = 1) then .inactive
  else if c < cols / 4 then .bicycle
  else if c < cols / 4 + cols / 4 then .motorcycle
  else .automobile

/-- The fraction pattern the generator actually applies: the motorcycle
band runs up to column `⌊cols/2⌋`. -/
def codeFractionPattern (cols r c : Nat) : SpotType :=
  if r % 7 = 0 ∧ (c % 7 = 0 ∨ c % 7 = 1) then .inactive
  else if c < cols / 4 then .bicycle
  else if c < cols / 2 then .motorcycle
  else .automobile

/-! ### Concrete lots for the witnesses. -/

/-- A 1×1×3 lot: one floor, one row `[bicycle, motorcycle, automobile]`
(degenerate-layout branch). -/
def lotA : ParkingLot :=
  (CreateParkingLot "T".toList 1 1 3).toOption.getD default

/-- `lotA` after parking bicycle `KA 1`. -/
def lotB : ParkingLot :=
  (lotA.Park .bicycle "KA 1".toList).2

/-- `lotB` after unparking that bicycle again. -/
def lotC : ParkingLot :=
  (lotB.Unpark "0-0-0".toList "KA 1".toList).2

/-- A 1×1×4 lot: one floor, one row `[B, M, A, A]` (the pillar rule
deactivates columns 0 and 1, the patch then rewrites columns 0–2). -/
def lotD : ParkingLot :=
  (CreateParkingLot "T".toList 1 1 4).toOption.getD default

/-- A standalone occupied automobile spot (occupant `CAR1`), as
`NewParkingSpot` + a successful `Occupy` would build it. -/
def spotW : ParkingSpot :=
  { type := .automobile, floor := 0, row := 0, column := 0,
    isOccupied := true, vehicleNumber := "CAR1".toList }

/-! ## Theorems.  Helper lemmas first, then the claim theorems. -/

theorem toNat_ofNat_lt {n : Nat} (h : n < 0xd800) : (Char.ofNat n).toNat = n := by
  unfold Char.ofNat
  rw [dif_pos (Or.inl h)]
  simp [Char.ofNatAux, Char.toNat, UInt32.toNat, UInt32.ofNatCore]

theorem isDigit_bounds {c : Char} (h : c.isDigit = true) :
    48 ≤ c.toNat ∧ c.toNat ≤ 57 := by
  simp only [Char.isDigit, ge_iff_le, Bool.and_eq_true, decide_eq_true_eq] at h
  exact h

theorem isDigit_not_space {c : Char} (h : c.isDigit = true) :
    fmtIsSpace c = false ∧ c ≠ '\n' ∧ c ≠ '-' ∧ c ≠ '+' ∧
      uniIsSpace c = false ∧ reIsSpace c = false := by
  obtain ⟨h1, h2⟩ := isDigit_bounds h
  refine ⟨?_, ?_, ?_, ?_, ?_, ?_⟩
  · simp only [fmtIsSpace, decide_eq_false_iff_not]; omega
  · intro he; subst he; exact absurd h1 (by decide)
  · intro he; subst he; exact absurd h1 (by decide)
  · intro he; subst he; exact absurd h1 (by decide)
  · simp only [uniIsSpace, decide_eq_false_iff_not]; omega
  · simp only [reIsSpace, decide_eq_false_iff_not]; omega

/-! ### `setIn` bookkeeping. -/

theorem length_setIn (l : List α) (i : Nat) (g : α → α) :
    (setIn l i g).length = l.length := by
  induction l generalizing i with
  | nil => rfl
  | cons x t ih =>
    cases i with
    | zero => rfl
    | succ j => simpa [setIn] using ih j

theorem getElem?_setIn_self (l : List α) (i : Nat) (g : α → α) :
    (setIn l i g)[i]? = (l[i]?).map g := by
  induction l generalizing i with
  | nil => cases i <;> rfl
  | cons x t ih =>
    cases i with
    | zero => simp [setIn]
    | succ j => simpa [setIn] using ih j

theorem getElem?_setIn_ne (l : List α) {i j : Nat} (g : α → α) (h : i ≠ j) :
    (setIn l i g)[j]? = l[j]? := by
  induction l generalizing i j with
  | nil => cases i <;> rfl
  | cons x t ih =>
    cases i with
    | zero => cases j with
      | zero => exact absurd rfl h
      | succ j2 => simp [setIn]
    | succ i2 =>
      cases j with
      | zero => simp [setIn]
      | succ j2 => simpa [setIn] using ih (i := i2) (j := j2) (fun he => h (by omega))

theorem countP_setIn (l : List α) (i : Nat) (g : α → α) (p : α → Bool)
    {a : α} (ha : l[i]? = some a) :
    List.countP p (setIn l i g) + (if p a then 1 else 0)
      = List.countP p l + (if p (g a) then 1 else 0) := by
  induction l generalizing i with
  | nil => simp at ha
  | cons x t ih =>
    cases i with
    | zero =>
      have hax : a = x := by simpa using ha.symm
      subst hax
      simp only [setIn, List.countP_cons]
      omega
    | succ j =>
      have ha2 : t[j]? = some a := by simpa using ha
      have := ih j ha2
      simp only [setIn, List.countP_cons]
      omega

theorem sum_map_setIn (l : List α) (i : Nat) (g : α → α) (h : α → Nat)
    {a : α} (ha : l[i]? = some a) :
    ((setIn l i g).map h).sum + h a = (l.map h).sum + h (g a) := by
  induction l generalizing i with
  | nil => simp at ha
  | cons x t ih =>
    cases i with
    | zero =>
      have hax : a = x := by simpa using ha.symm
      subst hax
      simp only [setIn, List.map_cons, List.sum_cons]
      omega
    | succ j =>
      have ha2 : t[j]? = some a := by simpa using ha
      have := ih j ha2
      simp only [setIn, List.map_cons, List.sum_cons]
      omega

/-! ### Digit strings, decimal printing, and the scanner. -/

theorem scanDigitsAux_append (d : Str) (hd : ∀ c ∈ d, c.isDigit = true)
    (rest : Str) (hr : ∀ c, rest.head? = some c → c.isDigit = false)
    (acc : Nat) :
    scanDigitsAux acc (d ++ rest) =
      (d.foldl (fun a c => 10 * a + (c.toNat - 48)) acc, rest) := by
  induction d generalizing acc with
  | nil =>
    cases rest with
    | nil => rfl
    | cons c t => simp [scanDigitsAux, hr c rfl]
  | cons c t ih =>
    have hc : c.isDigit = true := hd c (List.mem_cons_self c t)
    simp only [List.cons_append, scanDigitsAux, hc, if_true, List.foldl_cons]
    exact ih (fun x hx => hd x (List.mem_cons_of_mem c hx)) _

theorem scanDigits_digitStr (d : Str) (hne : d ≠ [])
    (hd : ∀ c ∈ d, c.isDigit = true) (rest : Str)
    (hr : ∀ c, rest.head? = some c → c.isDigit = false) :
    scanDigits (d ++ rest) = some (digitStrVal d, rest) := by
  cases d with
  | nil => exact absurd rfl hne
  | cons c t =>
    have hc : c.isDigit = true := hd c (List.mem_cons_self c t)
    simp only [List.cons_append, scanDigits, hc, if_true]
    rw [show (c :: (t ++ rest)) = (c :: t) ++ rest from rfl,
      scanDigitsAux_append (c :: t) hd rest hr 0]
    rfl

theorem digitChar_props {d : Nat} (h : d < 10) :
    (Nat.digitChar d).isDigit = true ∧ (Nat.digitChar d).toNat - 48 = d := by
  interval_cases d <;> exact ⟨by decide, by decide⟩

theorem natToDecAux_eq_digits : ∀ (n fuel : Nat), n ≤ fuel →
    natToDecAux fuel n = (Nat.digits 10 n).reverse.map Nat.digitChar := by
  intro n
  induction n using Nat.strong_induction_on with
  | _ n ih =>
    intro fuel hle
    cases fuel with
    | zero =>
      have hz : n = 0 := by omega
      subst hz
      simp [natToDecAux]
    | succ f =>
      by_cases hn : n = 0
      · subst hn; simp [natToDecAux]
      · have hlt : n / 10 < n := Nat.div_lt_self (Nat.pos_of_ne_zero hn)
          (by norm_num)
        have hdig : Nat.digits 10 n = n % 10 :: Nat.digits 10 (n / 10) :=
          Nat.digits_def' (by norm_num) (Nat.pos_of_ne_zero hn)
        simp only [natToDecAux, if_neg hn]
        rw [ih (n / 10) hlt f (by omega), hdig]
        simp

theorem natToDec_eq (n : Nat) :
    natToDec n =
      if n = 0 then ['0'] else (Nat.digits 10 n).reverse.map Nat.digitChar := by
  by_cases hn : n = 0
  · simp [natToDec, hn]
  · rw [natToDec, if_neg hn, if_neg hn, natToDecAux_eq_digits n n le_rfl]

theorem natToDec_ne_nil (n : Nat) : natToDec n ≠ [] := by
  rw [natToDec_eq]
  split
  · simp
  · simp [Nat.digits_ne_nil_iff_ne_zero, *]

theorem natToDec_digits (n : Nat) : ∀ c ∈ natToDec n, c.isDigit = true := by
  rw [natToDec_eq]
  split
  · intro c hc
    simp only [List.mem_singleton] at hc
    subst hc; decide
  · intro c hc
    simp only [List.mem_map, List.mem_reverse] at hc
    obtain ⟨d, hd, rfl⟩ := hc
    exact (digitChar_props (Nat.digits_lt_base (by norm_num) hd)).1

theorem foldr_eq_ofDigits (l : List Nat) :
    l.foldr (fun d a => 10 * a + d) 0 = Nat.ofDigits 10 l := by
  induction l with
  | nil => simp [Nat.ofDigits_nil]
  | cons d t ih => simp [Nat.ofDigits_cons, ih]; omega

theorem foldl_digitChar_cancel (l : List Nat) (hl : ∀ d ∈ l, d < 10)
    (acc : Nat) :
    List.foldl (fun a d => 10 * a + ((Nat.digitChar d).toNat - 48)) acc l
      = List.foldl (fun a d => 10 * a + d) acc l := by
  induction l generalizing acc with
  | nil => rfl
  | cons d t ih =>
    simp only [List.foldl_cons]
    rw [(digitChar_props (hl d (List.mem_cons_self d t))).2]
    exact ih (fun x hx => hl x (List.mem_cons_of_mem d hx)) _

theorem digitStrVal_natToDec (n : Nat) : digitStrVal (natToDec n) = n := by
  rw [natToDec_eq]
  unfold digitStrVal
  split
  · simp [*]
  · rw [List.foldl_map, foldl_digitChar_cancel _
      (fun d hd => Nat.digits_lt_base (by norm_num) (List.mem_reverse.mp hd)),
      List.foldl_reverse]
    have : (Nat.digits 10 n).foldr (fun x y => 10 * y + x) 0
        = Nat.ofDigits 10 (Nat.digits 10 n) := foldr_eq_ofDigits _
    rw [this, Nat.ofDigits_digits]

theorem goSkipSpace_digit_head {l : Str}
    (h : ∀ c, l.head? = some c → c.isDigit = true) :
    goSkipSpace l = some l := by
  cases l with
  | nil => rfl
  | cons c t =>
    obtain ⟨hf, hn, _, _, _, _⟩ := isDigit_not_space (h c rfl)
    simp [goSkipSpace, hn, hf]

theorem scanGoInt_digits (d : Str) (hne : d ≠ [])
    (hd : ∀ c ∈ d, c.isDigit = true) (hb : digitStrVal d < 2 ^ 63)
    (rest : Str)
    (hr : ∀ c, rest.head? = some c → c.isDigit = false) :
    scanGoInt (d ++ rest) = some ((digitStrVal d : Int), rest) := by
  cases d with
  | nil => exact absurd rfl hne
  | cons c t =>
    have hc : c.isDigit = true := hd c (List.mem_cons_self c t)
    obtain ⟨_, _, hm, hp, _, _⟩ := isDigit_not_space hc
    have hskip : goSkipSpace ((c :: t) ++ rest) = some ((c :: t) ++ rest) :=
      goSkipSpace_digit_head (fun x hx => by
        simp only [List.cons_append, List.head?_cons, Option.some_inj] at hx
        subst hx; exact hc)
    rw [scanGoInt, hskip, Option.some_bind]
    show scanSigned (c :: (t ++ rest)) = _
    rw [scanSigned, if_neg hm, if_neg hp,
      show (c :: (t ++ rest)) = (c :: t) ++ rest from rfl,
      scanDigits_digitStr (c :: t) hne hd rest hr]
    simp only [Option.some_bind]
    rw [if_pos hb]

theorem head_cons_not_digit (d : Str) :
    ∀ c, (('-' :: d).head? = some c) → c.isDigit = false := by
  intro c hc
  simp only [List.head?_cons, Option.some_inj] at hc
  subst hc; decide

/-- Positive half of the spot-ID round trip: any string that is exactly
three dash-separated digit strings parses to the encoded values. -/
theorem parseSpotID_exact (d1 d2 d3 : Str) (h1 : isDigitStr d1 = true)
    (h2 : isDigitStr d2 = true) (h3 : isDigitStr d3 = true)
    (hb1 : digitStrVal d1 < 2 ^ 63) (hb2 : digitStrVal d2 < 2 ^ 63)
    (hb3 : digitStrVal d3 < 2 ^ 63) :
    ParseSpotID (d1 ++ '-' :: (d2 ++ '-' :: d3)) =
      .ok (digitStrVal d1, digitStrVal d2, digitStrVal d3) := by
  have unpack : ∀ d : Str, isDigitStr d = true →
      d ≠ [] ∧ ∀ c ∈ d, c.isDigit = true := by
    intro d hd
    simp only [isDigitStr, Bool.and_eq_true, decide_eq_true_eq,
      List.all_eq_true] at hd
    exact hd
  obtain ⟨h1n, h1d⟩ := unpack d1 h1
  obtain ⟨h2n, h2d⟩ := unpack d2 h2
  obtain ⟨h3n, h3d⟩ := unpack d3 h3
  have s1 := scanGoInt_digits d1 h1n h1d hb1 ('-' :: (d2 ++ '-' :: d3))
    (head_cons_not_digit _)
  have s2 := scanGoInt_digits d2 h2n h2d hb2 ('-' :: d3)
    (head_cons_not_digit _)
  have s3 : scanGoInt d3 = some ((digitStrVal d3 : Int), []) := by
    have := scanGoInt_digits d3 h3n h3d hb3 [] (by intro c hc; simp at hc)
    simpa using this
  have e1 : expectDash ('-' :: (d2 ++ '-' :: d3)) = some (d2 ++ '-' :: d3) := by
    simp [expectDash]
  have e2 : expectDash ('-' :: d3) = some d3 := by simp [expectDash]
  have hz : ∀ n : Nat, ¬((n : Int) < 0) := fun n => by omega
  simp only [ParseSpotID, sscanfDDD, s1, Option.some_bind, e1, s2, e2, s3,
    Option.map_some']
  simp [hz]

/-- The round trip on printed spot IDs (`GetSpotID` then `ParseSpotID`). -/
theorem parseSpotID_spotIDChars (f r c : Nat) (hbf : f < 2 ^ 63)
    (hbr : r < 2 ^ 63) (hbc : c < 2 ^ 63) :
    ParseSpotID (spotIDChars f r c) = .ok (f, r, c) := by
  have hds : ∀ n : Nat, isDigitStr (natToDec n) = true := by
    intro n
    simp only [isDigitStr, Bool.and_eq_true, decide_eq_true_eq,
      List.all_eq_true]
    exact ⟨natToDec_ne_nil n, natToDec_digits n⟩
  have := parseSpotID_exact (natToDec f) (natToDec r) (natToDec c)
    (hds f) (hds r) (hds c)
    (by rw [digitStrVal_natToDec]; exact hbf)
    (by rw [digitStrVal_natToDec]; exact hbr)
    (by rw [digitStrVal_natToDec]; exact hbc)
  simpa [spotIDChars, digitStrVal_natToDec] using this

theorem spotIDChars_inj {f r c f2 r2 c2 : Nat} (hbf : f < 2 ^ 63)
    (hbr : r < 2 ^ 63) (hbc : c < 2 ^ 63) (hbf2 : f2 < 2 ^ 63)
    (hbr2 : r2 < 2 ^ 63) (hbc2 : c2 < 2 ^ 63)
    (h : spotIDChars f r c = spotIDChars f2 r2 c2) :
    f = f2 ∧ r = r2 ∧ c = c2 := by
  have h1 := parseSpotID_spotIDChars f r c hbf hbr hbc
  rw [h, parseSpotID_spotIDChars f2 r2 c2 hbf2 hbr2 hbc2] at h1
  injection h1 with h1
  exact ⟨(congrArg (fun t => t.1) h1).symm, (congrArg (fun t => t.2.1) h1).symm,
    (congrArg (fun t => t.2.2) h1).symm⟩

/-! ### The directory map operations. -/

theorem mapLoad_cons (a : Str × α) (t : List (Str × α)) (k : Str) :
    mapLoad k (a :: t) = if a.1 = k then some a.2 else mapLoad k t := by
  by_cases h : a.1 = k
  · rw [if_pos h, mapLoad, List.find?_cons_of_pos _ (by simpa using h)]
    rfl
  · rw [if_neg h, mapLoad, List.find?_cons_of_neg _ (by simpa using h), mapLoad]

theorem mapLoad_store_self (k : Str) (v : α) (m : List (Str × α)) :
    mapLoad k (mapStore k v m) = some v := by
  rw [mapStore, mapLoad_cons, if_pos rfl]

theorem mapLoad_filter_ne {k k' : Str} (h : k' ≠ k) (m : List (Str × α)) :
    mapLoad k' (m.filter fun p => p.1 ≠ k) = mapLoad k' m := by
  induction m with
  | nil => rfl
  | cons a t ih =>
    by_cases hk : a.1 = k
    · have hne : a.1 ≠ k' := fun he => h (he.symm.trans hk)
      rw [List.filter_cons_of_neg (by simpa using hk), ih, mapLoad_cons,
        if_neg hne]
    · rw [List.filter_cons_of_pos (by simpa using hk), mapLoad_cons,
        mapLoad_cons, ih]

theorem mapLoad_store_ne {k k' : Str} (h : k' ≠ k) (v : α) (m : List (Str × α)) :
    mapLoad k' (mapStore k v m) = mapLoad k' m := by
  rw [mapStore, mapLoad_cons, if_neg fun he => h he.symm, mapLoad_filter_ne h]

theorem mapLoad_delete_self (k : Str) (m : List (Str × α)) :
    mapLoad k (mapDelete k m) = none := by
  induction m with
  | nil => rfl
  | cons a t ih =>
    by_cases hk : a.1 = k
    · rw [mapDelete, List.filter_cons_of_neg (by simpa using hk)]
      exact ih
    · rw [mapDelete, List.filter_cons_of_pos (by simpa using hk),
        mapLoad_cons, if_neg hk]
      exact ih

theorem mapLoad_delete_ne {k k' : Str} (h : k' ≠ k) (m : List (Str × α)) :
    mapLoad k' (mapDelete k m) = mapLoad k' m :=
  mapLoad_filter_ne h m

theorem mapLoad_eq_none_iff (k : Str) (m : List (Str × α)) :
    mapLoad k m = none ↔ ∀ p ∈ m, p.1 ≠ k := by
  induction m with
  | nil => simp [mapLoad]
  | cons a t ih =>
    rw [mapLoad_cons]
    by_cases hk : a.1 = k
    · rw [if_pos hk]
      constructor
      · intro h; simp at h
      · intro h; exact absurd hk (h a (List.mem_cons_self a t))
    · rw [if_neg hk, ih]
      constructor
      · intro h p hp
        rcases List.mem_cons.mp hp with he | ht
        · exact he ▸ hk
        · exact h p ht
      · intro h p hp
        exact h p (List.mem_cons_of_mem a hp)

theorem length_store_of_none {k : Str} {m : List (Str × α)}
    (h : mapLoad k m = none) (v : α) :
    (mapStore k v m).length = m.length + 1 := by
  have hf : m.filter (fun p => p.1 ≠ k) = m :=
    List.filter_eq_self.mpr fun p hp => by
      simpa using (mapLoad_eq_none_iff k m).mp h p hp
  rw [mapStore, hf, List.length_cons]

theorem load_some_mem {k : Str} {v : α} {m : List (Str × α)}
    (h : mapLoad k m = some v) : (k, v) ∈ m := by
  induction m with
  | nil => simp [mapLoad] at h
  | cons a t ih =>
    rw [mapLoad_cons] at h
    by_cases hk : a.1 = k
    · rw [if_pos hk] at h
      have hv : a.2 = v := by simpa using h
      have : a = (k, v) := by
        cases a
        simp only at hk hv
        rw [hk, hv]
      exact this ▸ List.mem_cons_self a t
    · rw [if_neg hk] at h
      exact List.mem_cons_of_mem a (ih h)

theorem mem_load_of_nodup {k : Str} {v : α} {m : List (Str × α)}
    (hn : (m.map fun p => p.1).Nodup) (h : (k, v) ∈ m) :
    mapLoad k m = some v := by
  induction m with
  | nil => simp at h
  | cons a t ih =>
    rcases List.mem_cons.mp h with he | ht
    · rw [← he, mapLoad_cons, if_pos rfl]
    · have hn2 : (t.map fun p => p.1).Nodup := (List.nodup_cons.mp hn).2
      have hk : a.1 ≠ k := by
        intro he2
        exact (List.nodup_cons.mp hn).1
          (List.mem_map.mpr ⟨(k, v), ht, by simpa using he2.symm⟩)
      rw [mapLoad_cons, if_neg hk]
      exact ih hn2 ht

theorem length_delete_of_some {k : Str} {v : α} {m : List (Str × α)}
    (hn : (m.map fun p => p.1).Nodup) (h : mapLoad k m = some v) :
    (mapDelete k m).length + 1 = m.length := by
  induction m with
  | nil => simp [mapLoad] at h
  | cons a t ih =>
    have hn2 : (t.map fun p => p.1).Nodup := (List.nodup_cons.mp hn).2
    by_cases hk : a.1 = k
    · have hf : t.filter (fun p => p.1 ≠ k) = t :=
        List.filter_eq_self.mpr fun p hp => by
          simp only [ne_eq, decide_eq_true_eq]
          intro he
          exact (List.nodup_cons.mp hn).1
            (List.mem_map.mpr ⟨p, hp, by simpa using he.trans hk.symm⟩)
      rw [mapDelete, List.filter_cons_of_neg (by simpa using hk), hf,
        List.length_cons]
    · rw [mapLoad_cons, if_neg hk] at h
      have := ih hn2 h
      simp only [mapDelete, List.filter_cons, decide_eq_true_eq] at this ⊢
      rw [if_pos hk]
      simpa using this

theorem nodup_keys_store {k : Str} (v : α) {m : List (Str × α)}
    (hn : (m.map fun p => p.1).Nodup) :
    ((mapStore k v m).map fun p => p.1).Nodup := by
  have hsub : ((m.filter fun p => p.1 ≠ k).map fun p => p.1).Sublist
      (m.map fun p => p.1) := (List.filter_sublist m).map _
  refine List.nodup_cons.mpr ⟨?_, hsub.nodup hn⟩
  intro hk
  obtain ⟨p, hp, hpk⟩ := List.mem_map.mp hk
  exact absurd hpk (by simpa using (List.mem_filter.mp hp).2)

theorem nodup_keys_delete (k : Str) {m : List (Str × α)}
    (hn : (m.map fun p => p.1).Nodup) :
    ((mapDelete k m).map fun p => p.1).Nodup :=
  (((List.filter_sublist m).map _)).nodup hn

theorem mem_store_elim {k : Str} {v : α} {m : List (Str × α)} {x : Str × α}
    (h : x ∈ mapStore k v m) : x = (k, v) ∨ (x ∈ m ∧ x.1 ≠ k) := by
  rcases List.mem_cons.mp h with he | hf
  · exact Or.inl he
  · have := List.mem_filter.mp hf
    exact Or.inr ⟨this.1, by simpa using this.2⟩

theorem mem_delete_elim {k : Str} {m : List (Str × α)} {x : Str × α}
    (h : x ∈ mapDelete k m) : x ∈ m ∧ x.1 ≠ k := by
  have := List.mem_filter.mp h
  exact ⟨this.1, by simpa using this.2⟩

/-! ### Soundness of the first-fit scan. -/

theorem rowFirstAvail_sound {vt : VehicleType} {row : List ParkingSpot} {c : Nat}
    (h : rowFirstAvail vt row = some c) :
    (∃ s, row[c]? = some s ∧ s.CanPark vt = true) ∧
      ∀ c' s', row[c']? = some s' → s'.CanPark vt = true → c ≤ c' := by
  induction row generalizing c with
  | nil => simp [rowFirstAvail] at h
  | cons s t ih =>
    cases hs : s.CanPark vt with
    | true =>
      simp only [rowFirstAvail, hs, if_true, Option.some_inj] at h
      subst h
      exact ⟨⟨s, by simp, hs⟩, fun c' s' _ _ => Nat.zero_le c'⟩
    | false =>
      rw [rowFirstAvail, if_neg (by simp [hs]), Option.map_eq_some'] at h
      obtain ⟨c0, hc0, hc⟩ := h
      subst hc
      obtain ⟨⟨s0, h0, hp0⟩, hmin⟩ := ih hc0
      refine ⟨⟨s0, by simpa using h0, hp0⟩, ?_⟩
      intro c' s' hc' hp'
      cases c' with
      | zero =>
        have hss : s' = s := by simpa using hc'.symm
        rw [hss, hs] at hp'
        exact absurd hp' (by simp)
      | succ c2 =>
        exact Nat.succ_le_succ (hmin c2 s' (by simpa using hc') hp')

theorem rowFirstAvail_none {vt : VehicleType} {row : List ParkingSpot}
    (h : rowFirstAvail vt row = none) :
    ∀ (c : Nat) (s : ParkingSpot), row[c]? = some s → s.CanPark vt = false := by
  induction row with
  | nil => intro c s hc; simp at hc
  | cons s t ih =>
    intro c s' hc
    cases hs : s.CanPark vt with
    | true => rw [rowFirstAvail, if_pos hs] at h; exact absurd h (by simp)
    | false =>
      rw [rowFirstAvail, if_neg (by simp [hs]), Option.map_eq_none'] at h
      cases c with
      | zero =>
        have hss : s' = s := by simpa using hc.symm
        rw [hss]; exact hs
      | succ c2 => exact ih h c2 s' (by simpa using hc)

theorem gridFirstAvail_sound {vt : VehicleType} {g : List (List ParkingSpot)}
    {r c : Nat} (h : gridFirstAvail vt g = some (r, c)) :
    (∃ s, ((g[r]?).bind fun row => row[c]?) = some s ∧ s.CanPark vt = true) ∧
      ∀ r' c' s', ((g[r']?).bind fun row => row[c']?) = some s' →
        s'.CanPark vt = true → r < r' ∨ (r = r' ∧ c ≤ c') := by
  induction g generalizing r c with
  | nil => simp [gridFirstAvail] at h
  | cons row t ih =>
    cases hrow : rowFirstAvail vt row with
    | some c0 =>
      simp only [gridFirstAvail, hrow, Option.some_inj, Prod.mk.injEq] at h
      obtain ⟨hr, hc⟩ := h
      subst hr; subst hc
      obtain ⟨⟨s0, h0, hp0⟩, hmin⟩ := rowFirstAvail_sound hrow
      refine ⟨⟨s0, by simpa using h0, hp0⟩, ?_⟩
      intro r' c' s' hc' hp'
      cases r' with
      | zero => exact Or.inr ⟨rfl, hmin c' s' (by simpa using hc') hp'⟩
      | succ r2 => exact Or.inl (Nat.succ_pos r2)
    | none =>
      simp only [gridFirstAvail, hrow, Option.map_eq_some'] at h
      obtain ⟨⟨r0, c0⟩, hg, hpair⟩ := h
      simp only [Prod.mk.injEq] at hpair
      obtain ⟨hr, hc⟩ := hpair
      subst hr; subst hc
      obtain ⟨⟨s0, h0, hp0⟩, hmin⟩ := ih hg
      refine ⟨⟨s0, by simpa using h0, hp0⟩, ?_⟩
      intro r' c' s' hc' hp'
      cases r' with
      | zero =>
        have hrow0 := rowFirstAvail_none hrow c' s' (by simpa using hc')
        rw [hrow0] at hp'
        exact absurd hp' (by simp)
      | succ r2 =>
        rcases hmin r2 c' s' (by simpa using hc') hp' with hlt | ⟨heq, hle⟩
        · exact Or.inl (by omega)
        · exact Or.inr ⟨by omega, hle⟩

theorem gridFirstAvail_none {vt : VehicleType} {g : List (List ParkingSpot)}
    (h : gridFirstAvail vt g = none) :
    ∀ (r c : Nat) (s : ParkingSpot), ((g[r]?).bind fun row => row[c]?) = some s →
      s.CanPark vt = false := by
  induction g with
  | nil => intro r c s hc; simp at hc
  | cons row t ih =>
    intro r c s hc
    cases hrow : rowFirstAvail vt row with
    | some c0 => simp [gridFirstAvail, hrow] at h
    | none =>
      simp only [gridFirstAvail, hrow, Option.map_eq_none'] at h
      cases r with
      | zero => exact rowFirstAvail_none hrow c s (by simpa using hc)
      | succ r2 => exact ih h r2 c s (by simpa using hc)

theorem lotFirstAvail_sound {vt : VehicleType} {fls : List ParkingFloor}
    {i r c : Nat} (h : lotFirstAvail vt fls = some (i, r, c)) :
    (∃ s, ((fls[i]?).bind fun f => (f.spots[r]?).bind fun row => row[c]?)
        = some s ∧ s.CanPark vt = true) ∧
      ∀ i' r' c' s',
        ((fls[i']?).bind fun f => (f.spots[r']?).bind fun row => row[c']?)
          = some s' → s'.CanPark vt = true →
        lexLE3 (i, r, c) (i', r', c') := by
  induction fls generalizing i r c with
  | nil => simp [lotFirstAvail] at h
  | cons f t ih =>
    cases hg : gridFirstAvail vt f.spots with
    | some p =>
      obtain ⟨r0, c0⟩ := p
      simp only [lotFirstAvail, hg, Option.some_inj, Prod.mk.injEq] at h
      obtain ⟨hi, hr, hc⟩ := h
      subst hi; subst hr; subst hc
      obtain ⟨⟨s0, h0, hp0⟩, hmin⟩ := gridFirstAvail_sound hg
      refine ⟨⟨s0, by simpa using h0, hp0⟩, ?_⟩
      intro i' r' c' s' hc' hps'
      cases i' with
      | zero =>
        rcases hmin r' c' s' (by simpa using hc') hps' with hlt | ⟨heq, hle⟩
        · exact Or.inr ⟨rfl, Or.inl hlt⟩
        · exact Or.inr ⟨rfl, Or.inr ⟨heq, hle⟩⟩
      | succ i2 => exact Or.inl (Nat.succ_pos i2)
    | none =>
      simp only [lotFirstAvail, hg, Option.map_eq_some'] at h
      obtain ⟨⟨i0, r0, c0⟩, hq, hpair⟩ := h
      simp only [Prod.mk.injEq] at hpair
      obtain ⟨hi, hr, hc⟩ := hpair
      subst hi; subst hr; subst hc
      obtain ⟨⟨s0, h0, hp0⟩, hmin⟩ := ih hq
      refine ⟨⟨s0, by simpa using h0, hp0⟩, ?_⟩
      intro i' r' c' s' hc' hps'
      cases i' with
      | zero =>
        have := gridFirstAvail_none hg r' c' s' (by simpa using hc')
        rw [this] at hps'
        exact absurd hps' (by simp)
      | succ i2 =>
        rcases hmin i2 r' c' s' (by simpa using hc') hps' with hlt | ⟨heq, hrest⟩
        · exact Or.inl (by omega)
        · exact Or.inr ⟨by omega, hrest⟩

theorem lotFirstAvail_none {vt : VehicleType} {fls : List ParkingFloor}
    (h : lotFirstAvail vt fls = none) :
    ∀ (i r c : Nat) (s : ParkingSpot),
      ((fls[i]?).bind fun f => (f.spots[r]?).bind fun row => row[c]?)
        = some s → s.CanPark vt = false := by
  induction fls with
  | nil => intro i r c s hc; simp at hc
  | cons f t ih =>
    intro i r c s hc
    cases hg : gridFirstAvail vt f.spots with
    | some p => simp [lotFirstAvail, hg] at h
    | none =>
      simp only [lotFirstAvail, hg, Option.map_eq_none'] at h
      cases i with
      | zero => exact gridFirstAvail_none hg r c s (by simpa using hc)
      | succ i2 => exact ih h i2 r c s (by simpa using hc)

/-! ### Normalization: character classes, trimming, and collapsing. -/

theorem isAlnumChar_iff (c : Char) :
    isAlnumChar c = true ↔
      (65 ≤ c.toNat ∧ c.toNat ≤ 90) ∨ (97 ≤ c.toNat ∧ c.toNat ≤ 122) ∨
        (48 ≤ c.toNat ∧ c.toNat ≤ 57) := by
  simp only [isAlnumChar, Char.isAlpha, Char.isUpper, Char.isLower,
    Char.isDigit, Bool.or_eq_true, Bool.and_eq_true, decide_eq_true_eq,
    ge_iff_le]
  exact ⟨fun h => by
      rcases h with (h | h) | h
      exacts [Or.inl h, Or.inr (Or.inl h), Or.inr (Or.inr h)],
    fun h => by
      rcases h with h | h | h
      exacts [Or.inl (Or.inl h), Or.inl (Or.inr h), Or.inr h]⟩

theorem reIsSpace_imp_uni {c : Char} (h : reIsSpace c = true) :
    uniIsSpace c = true := by
  simp only [reIsSpace, decide_eq_true_eq] at h
  simp only [uniIsSpace, decide_eq_true_eq]
  omega

theorem alnum_not_space {c : Char} (h : isAlnumChar c = true) :
    uniIsSpace c = false ∧ reIsSpace c = false := by
  rw [isAlnumChar_iff] at h
  constructor
  · simp only [uniIsSpace, decide_eq_false_iff_not]; omega
  · simp only [reIsSpace, decide_eq_false_iff_not]; omega

theorem upperChar_toNat (c : Char) :
    (upperChar c).toNat =
      if 97 ≤ c.toNat ∧ c.toNat ≤ 122 then c.toNat - 32 else c.toNat := by
  show (Char.toUpper c).toNat = _
  unfold Char.toUpper
  by_cases h : 97 ≤ c.toNat ∧ c.toNat ≤ 122
  · rw [if_pos h, if_pos ⟨h.1, h.2⟩, toNat_ofNat_lt (by omega)]
  · rw [if_neg h, if_neg fun hx => h ⟨hx.1, hx.2⟩]

theorem upperChar_eq_self {c : Char} (h : ¬(97 ≤ c.toNat ∧ c.toNat ≤ 122)) :
    upperChar c = c := by
  show Char.toUpper c = c
  unfold Char.toUpper
  exact if_neg fun hx => h ⟨hx.1, hx.2⟩

theorem upperChar_idem (c : Char) : upperChar (upperChar c) = upperChar c := by
  apply upperChar_eq_self
  rw [upperChar_toNat]
  by_cases h : 97 ≤ c.toNat ∧ c.toNat ≤ 122
  · rw [if_pos h]; omega
  · rw [if_neg h]; exact h

theorem uniIsSpace_upper (c : Char) :
    uniIsSpace (upperChar c) = uniIsSpace c := by
  have h := upperChar_toNat c
  simp only [uniIsSpace]
  by_cases hc : 97 ≤ c.toNat ∧ c.toNat ≤ 122
  · rw [h, if_pos hc, decide_eq_decide]; omega
  · rw [h, if_neg hc]

theorem reIsSpace_upper (c : Char) :
    reIsSpace (upperChar c) = reIsSpace c := by
  have h := upperChar_toNat c
  simp only [reIsSpace]
  by_cases hc : 97 ≤ c.toNat ∧ c.toNat ≤ 122
  · rw [h, if_pos hc, decide_eq_decide]; omega
  · rw [h, if_neg hc]

theorem isAlnumChar_upper {c : Char} (h : isAlnumChar c = true) :
    isAlnumChar (upperChar c) = true := by
  rw [isAlnumChar_iff] at h ⊢
  rw [upperChar_toNat]
  by_cases hc : 97 ≤ c.toNat ∧ c.toNat ≤ 122
  · rw [if_pos hc]; omega
  · rw [if_neg hc]; omega

theorem patternChar_iff (c : Char) :
    patternChar c = true ↔ isAlnumChar c = true ∨ reIsSpace c = true ∨
      c.toNat = 45 := by
  have h45 : (c == '-') = true ↔ c.toNat = 45 := by
    constructor
    · intro h
      rw [show c = '-' from by simpa using h]
      rfl
    · intro h
      have : c = '-' := Char.ext (by
        have : c.val.toNat = 45 := h
        have h2 : ('-' : Char).val.toNat = 45 := rfl
        exact UInt32.toNat.inj (this.trans h2.symm) ▸ rfl)
      simp [this]
  simp only [patternChar, Bool.or_eq_true, h45, or_assoc]

theorem patternChar_upper {c : Char} (h : patternChar c = true) :
    patternChar (upperChar c) = true := by
  rw [patternChar_iff] at h ⊢
  rcases h with ha | hr | hm
  · exact Or.inl (isAlnumChar_upper ha)
  · exact Or.inr (Or.inl ((reIsSpace_upper c).symm ▸ hr))
  · refine Or.inr (Or.inr ?_)
    rw [upperChar_toNat, if_neg (by omega)]
    exact hm

theorem upperChar_blank : upperChar ' ' = ' ' := rfl

theorem patternChar_blank : patternChar ' ' = true := by decide

/-! ### Trimming. -/

theorem dropWhile_head_not (p : Char → Bool) (l : Str) :
    ∀ c, (l.dropWhile p).head? = some c → p c = false := by
  induction l with
  | nil => intro c hc; simp at hc
  | cons x t ih =>
    intro c hc
    rw [List.dropWhile_cons] at hc
    by_cases hx : p x = true
    · rw [if_pos hx] at hc
      exact ih c hc
    · rw [if_neg hx] at hc
      have : x = c := by simpa using hc
      subst this
      simpa using hx

theorem trimSpace_getLast_not (l : Str) :
    ∀ c, (trimSpace l).getLast? = some c → uniIsSpace c = false := by
  intro c hc
  rw [trimSpace, List.getLast?_reverse] at hc
  exact dropWhile_head_not uniIsSpace _ c hc

theorem trimSpace_subset {l : Str} {x : Char} (h : x ∈ trimSpace l) : x ∈ l := by
  rw [trimSpace, List.mem_reverse] at h
  have h2 : x ∈ (l.dropWhile uniIsSpace).reverse :=
    List.Sublist.mem h (List.dropWhile_sublist _)
  rw [List.mem_reverse] at h2
  exact List.Sublist.mem h2 (List.dropWhile_sublist _)

theorem dropWhile_append_singleton (p : Char → Bool) (xs : Str) {a : Char}
    (ha : p a = false) :
    (xs ++ [a]).dropWhile p = xs.dropWhile p ++ [a] := by
  induction xs with
  | nil => simp [List.dropWhile_cons, ha]
  | cons x t ih =>
    rw [List.cons_append, List.dropWhile_cons, List.dropWhile_cons]
    by_cases hx : p x = true
    · rw [if_pos hx, if_pos hx]; exact ih
    · rw [if_neg hx, if_neg hx, List.cons_append]

theorem trimSpace_cons_head {c0 : Char} (rest : Str)
    (h0 : uniIsSpace c0 = false) :
    ∃ t, trimSpace (c0 :: rest) = c0 :: t := by
  rw [trimSpace]
  rw [List.dropWhile_cons, if_neg (by simp [h0])]
  rw [show (c0 :: rest).reverse = rest.reverse ++ [c0] by simp]
  rw [dropWhile_append_singleton uniIsSpace _ h0]
  exact ⟨(rest.reverse.dropWhile uniIsSpace).reverse, by simp⟩

theorem dropWhile_eq_self_of_head (p : Char → Bool) (l : Str)
    (h : ∀ c, l.head? = some c → p c = false) : l.dropWhile p = l := by
  cases l with
  | nil => rfl
  | cons x t => rw [List.dropWhile_cons, if_neg (by simp [h x rfl])]

theorem trimSpace_eq_self (l : Str)
    (h1 : ∀ c, l.head? = some c → uniIsSpace c = false)
    (h2 : ∀ c, l.getLast? = some c → uniIsSpace c = false) :
    trimSpace l = l := by
  rw [trimSpace, dropWhile_eq_self_of_head uniIsSpace l h1,
    dropWhile_eq_self_of_head uniIsSpace l.reverse
      (fun c hc => h2 c (by rwa [List.head?_reverse] at hc)),
    List.reverse_reverse]

/-! ### Collapsing white-space runs. -/

theorem collapseAux_mem {z : Str} {b : Bool} {x : Char}
    (h : x ∈ collapseAux b z) : x = ' ' ∨ x ∈ z := by
  induction z generalizing b with
  | nil => simp [collapseAux] at h
  | cons c t ih =>
    rw [collapseAux] at h
    by_cases hc : reIsSpace c = true
    · rw [if_pos hc] at h
      by_cases hb : b
      · rw [if_pos hb] at h
        rcases ih h with hx | hx
        · exact Or.inl hx
        · exact Or.inr (List.mem_cons_of_mem c hx)
      · rw [if_neg hb] at h
        rcases List.mem_cons.mp h with hx | hx
        · exact Or.inl hx
        · rcases ih hx with hy | hy
          · exact Or.inl hy
          · exact Or.inr (List.mem_cons_of_mem c hy)
    · rw [if_neg hc] at h
      rcases List.mem_cons.mp h with hx | hx
      · exact Or.inr (hx ▸ List.mem_cons_self c t)
      · rcases ih hx with hy | hy
        · exact Or.inl hy
        · exact Or.inr (List.mem_cons_of_mem c hy)

theorem collapseAux_cons_nonspace {c : Char} (t : Str) (b : Bool)
    (hc : reIsSpace c = false) :
    collapseAux b (c :: t) = c :: collapseAux false t := by
  rw [collapseAux, if_neg (by simp [hc])]

theorem collapseAux_true_nil {t : Str} (h : collapseAux true t = []) :
    ∀ x ∈ t, reIsSpace x = true := by
  induction t with
  | nil => intro x hx; simp at hx
  | cons c t2 ih =>
    intro x hx
    by_cases hc : reIsSpace c = true
    · rw [collapseAux, if_pos hc, if_pos rfl] at h
      rcases List.mem_cons.mp hx with he | ht
      · exact he ▸ hc
      · exact ih h x ht
    · rw [collapseAux_cons_nonspace t2 true (by simpa using hc)] at h
      simp at h

theorem collapseAux_getLast {z : Str}
    (h : ∀ c, z.getLast? = some c → reIsSpace c = false) :
    ∀ b c, (collapseAux b z).getLast? = some c → z.getLast? = some c := by
  induction z with
  | nil => intro b c hc; simp [collapseAux] at hc
  | cons x t ih =>
    intro b c hc
    cases t with
    | nil =>
      have hx : reIsSpace x = false := h x rfl
      rw [collapseAux_cons_nonspace [] b hx] at hc
      simpa [collapseAux] using hc
    | cons t1 t2 =>
      have hh : ∀ c2, (t1 :: t2).getLast? = some c2 → reIsSpace c2 = false :=
        fun c2 hc2 => h c2 (by simpa [List.getLast?_cons_cons] using hc2)
      rw [List.getLast?_cons_cons]
      by_cases hx : reIsSpace x = true
      · rw [collapseAux, if_pos hx] at hc
        by_cases hb : b = true
        · rw [if_pos hb] at hc
          exact ih hh true c hc
        · rw [if_neg hb] at hc
          cases hY : collapseAux true (t1 :: t2) with
          | nil =>
            exfalso
            have hsome : ((t1 :: t2).getLast?).isSome := by
              rw [List.getLast?_isSome]
              simp
            obtain ⟨cl, hcl⟩ := Option.isSome_iff_exists.mp hsome
            have hre := collapseAux_true_nil hY cl
              (List.mem_of_mem_getLast? hcl)
            rw [hh cl hcl] at hre
            simp at hre
          | cons y1 y2 =>
            rw [hY, List.getLast?_cons_cons, ← hY] at hc
            exact ih hh true c hc
      · rw [collapseAux_cons_nonspace _ b (by simpa using hx)] at hc
        cases hZ : collapseAux false (t1 :: t2) with
        | nil =>
          exfalso
          rw [collapseAux] at hZ
          by_cases hu : reIsSpace t1 = true
          · rw [if_pos hu, if_neg (by simp)] at hZ
            simp at hZ
          · rw [if_neg hu] at hZ
            simp at hZ
        | cons z1 z2 =>
          rw [hZ, List.getLast?_cons_cons, ← hZ] at hc
          exact ih hh false c hc

theorem collapseAux_idem (z : Str) :
    ∀ b, collapseAux b (collapseAux b z) = collapseAux b z := by
  induction z with
  | nil => intro b; rfl
  | cons c t ih =>
    intro b
    by_cases hc : reIsSpace c = true
    · cases b with
      | true =>
        rw [collapseAux, if_pos hc, if_pos rfl]
        exact ih true
      | false =>
        rw [collapseAux, if_pos hc, if_neg (by simp)]
        rw [collapseAux, if_pos (by decide : reIsSpace ' ' = true),
          if_neg (by simp)]
        rw [ih true]
    · rw [collapseAux_cons_nonspace t b (by simpa using hc)]
      rw [collapseAux_cons_nonspace _ b (by simpa using hc)]
      rw [ih false]

/-! ### Validation and normalization of vehicle numbers. -/

theorem validate_none_iff (l : Str) :
    ValidateVehicleNumber l = none ↔
      trimSpace l ≠ [] ∧ matchesVehiclePattern l = true := by
  rw [ValidateVehicleNumber]
  by_cases h1 : trimSpace l = []
  · simp [h1]
  · rw [if_neg h1]
    by_cases h2 : matchesVehiclePattern l = true
    · simp [h1, h2]
    · simp [h1, h2]

theorem validate_struct {l : Str} (h : ValidateVehicleNumber l = none) :
    ∃ c0 rest, l = c0 :: rest ∧ isAlnumChar c0 = true ∧
      ∀ x ∈ rest, patternChar x = true := by
  obtain ⟨-, hm⟩ := (validate_none_iff l).mp h
  cases l with
  | nil => simp [matchesVehiclePattern] at hm
  | cons c0 rest =>
    rw [matchesVehiclePattern, Bool.and_eq_true, List.all_eq_true] at hm
    exact ⟨c0, rest, rfl, hm.1, hm.2⟩

theorem normalize_head {l : Str} (h : ValidateVehicleNumber l = none) :
    ∃ c0 t, NormalizeVehicleNumber l = c0 :: t ∧ isAlnumChar c0 = true := by
  obtain ⟨c0, rest, rfl, ha, -⟩ := validate_struct h
  obtain ⟨t1, ht1⟩ :=
    trimSpace_cons_head rest (alnum_not_space ha).1
  rw [NormalizeVehicleNumber, ht1, List.map_cons]
  have ha2 : isAlnumChar (upperChar c0) = true := isAlnumChar_upper ha
  rw [collapseAux_cons_nonspace _ false (alnum_not_space ha2).2]
  exact ⟨upperChar c0, collapseAux false (t1.map upperChar), rfl, ha2⟩

theorem normalize_chars {l : Str} (h : ValidateVehicleNumber l = none) :
    ∀ x ∈ NormalizeVehicleNumber l, patternChar x = true := by
  obtain ⟨c0, rest, rfl, ha, hrest⟩ := validate_struct h
  intro x hx
  rcases collapseAux_mem hx with hb | hx2
  · exact hb ▸ patternChar_blank
  · obtain ⟨w, hw, rfl⟩ := List.mem_map.mp hx2
    have hwl : w ∈ c0 :: rest := trimSpace_subset hw
    rcases List.mem_cons.mp hwl with he | ht
    · subst he
      exact patternChar_upper (by
        rw [patternChar_iff]
        exact Or.inl ha)
    · exact patternChar_upper (hrest w ht)

/-- A valid vehicle number normalizes to a valid vehicle number, so the
`Occupy` call inside `Park` never fails on validation. -/
theorem validate_normalize {l : Str} (h : ValidateVehicleNumber l = none) :
    ValidateVehicleNumber (NormalizeVehicleNumber l) = none := by
  obtain ⟨c0, t, hn, ha⟩ := normalize_head h
  rw [validate_none_iff, hn]
  constructor
  · obtain ⟨t2, ht2⟩ := trimSpace_cons_head t (alnum_not_space ha).1
    rw [ht2]
    simp
  · rw [matchesVehiclePattern, Bool.and_eq_true, List.all_eq_true]
    refine ⟨ha, fun x hx => ?_⟩
    have := normalize_chars h
    rw [hn] at this
    exact this x (List.mem_cons_of_mem c0 hx)

/-- Normalization is idempotent on valid vehicle numbers: the occupant a
spot stores (`normalize (normalize num)`) equals the key the directory
stores (`normalize num`). -/
theorem normalize_idem {l : Str} (h : ValidateVehicleNumber l = none) :
    NormalizeVehicleNumber (NormalizeVehicleNumber l)
      = NormalizeVehicleNumber l := by
  obtain ⟨c0, t, hn, ha⟩ := normalize_head h
  have hy_last : ∀ c, (NormalizeVehicleNumber l).getLast? = some c →
      uniIsSpace c = false := by
    intro c hc
    rw [NormalizeVehicleNumber] at hc
    have hz_last : ∀ c2, ((trimSpace l).map upperChar).getLast? = some c2 →
        uniIsSpace c2 = false := by
      intro c2 hc2
      rw [List.getLast?_map, Option.map_eq_some'] at hc2
      obtain ⟨w, hw, hwc⟩ := hc2
      rw [← hwc, uniIsSpace_upper]
      exact trimSpace_getLast_not l w hw
    have hz_last_re : ∀ c2, ((trimSpace l).map upperChar).getLast? = some c2 →
        reIsSpace c2 = false := by
      intro c2 hc2
      have hu := hz_last c2 hc2
      cases hre : reIsSpace c2 with
      | false => rfl
      | true => rw [reIsSpace_imp_uni hre] at hu; simp at hu
    exact hz_last c (collapseAux_getLast hz_last_re false c hc)
  have htrim : trimSpace (NormalizeVehicleNumber l) = NormalizeVehicleNumber l := by
    refine trimSpace_eq_self _ (fun c hc => ?_) hy_last
    rw [hn] at hc
    have he : c0 = c := by simpa using hc
    exact he ▸ (alnum_not_space ha).1
  have hfix : ∀ x ∈ NormalizeVehicleNumber l, upperChar x = x := by
    intro x hx
    rw [NormalizeVehicleNumber] at hx
    rcases collapseAux_mem hx with hb | hx2
    · rw [hb]; exact upperChar_blank
    · obtain ⟨w, hw, hwx⟩ := List.mem_map.mp hx2
      rw [← hwx]
      exact upperChar_idem w
  have hmap : (NormalizeVehicleNumber l).map upperChar
      = NormalizeVehicleNumber l := by
    calc (NormalizeVehicleNumber l).map upperChar
        = (NormalizeVehicleNumber l).map id := List.map_congr_left hfix
      _ = NormalizeVehicleNumber l := List.map_id _
  conv_lhs => rw [NormalizeVehicleNumber, htrim, hmap]
  rw [NormalizeVehicleNumber]
  exact collapseAux_idem _ false

/-! ### Grid access and update. -/

theorem spotAtIdx_unpack {p : ParkingLot} {i r c : Nat} {s : ParkingSpot}
    (h : spotAtIdx p i r c = some s) :
    ∃ f row, p.floors[i]? = some f ∧ f.spots[r]? = some row ∧
      row[c]? = some s := by
  rw [spotAtIdx, Option.bind_eq_some] at h
  obtain ⟨f, hf, h2⟩ := h
  rw [Option.bind_eq_some] at h2
  obtain ⟨row, hrow, h3⟩ := h2
  exact ⟨f, row, hf, hrow, h3⟩

theorem spotAtIdx_update_floors (p : ParkingLot) (i r c : Nat)
    (s2 : ParkingSpot) :
    (updateSpotIdx p i r c s2).floors = setIn p.floors i fun f =>
      { f with spots := setIn f.spots r fun row => setIn row c fun _ => s2 } :=
  rfl

theorem spotAtIdx_update_self {p : ParkingLot} {i r c : Nat} {s : ParkingSpot}
    (h : spotAtIdx p i r c = some s) (s2 : ParkingSpot) :
    spotAtIdx (updateSpotIdx p i r c s2) i r c = some s2 := by
  obtain ⟨f, row, hf, hrow, hc⟩ := spotAtIdx_unpack h
  rw [spotAtIdx, spotAtIdx_update_floors, getElem?_setIn_self, hf]
  simp only [Option.map_some', Option.some_bind]
  rw [getElem?_setIn_self, hrow]
  simp only [Option.map_some', Option.some_bind]
  rw [getElem?_setIn_self, hc]
  simp

theorem spotAtIdx_update_ne {p : ParkingLot} (i r c : Nat) (s2 : ParkingSpot)
    {i2 r2 c2 : Nat} (hne : ¬(i = i2 ∧ r = r2 ∧ c = c2)) :
    spotAtIdx (updateSpotIdx p i r c s2) i2 r2 c2 = spotAtIdx p i2 r2 c2 := by
  rw [spotAtIdx, spotAtIdx, spotAtIdx_update_floors]
  by_cases hi : i = i2
  · subst hi
    rw [getElem?_setIn_self]
    cases hf : p.floors[i]? with
    | none => rfl
    | some f =>
      simp only [Option.map_some', Option.some_bind]
      by_cases hr : r = r2
      · subst hr
        rw [getElem?_setIn_self]
        cases hrow : f.spots[r]? with
        | none => rfl
        | some row =>
          simp only [Option.map_some', Option.some_bind]
          have hc : c ≠ c2 := fun he => hne ⟨rfl, rfl, he⟩
          rw [getElem?_setIn_ne _ _ hc]
      · rw [getElem?_setIn_ne _ _ hr]
  · rw [getElem?_setIn_ne _ _ hi]

theorem spotAtIdx_update_some {p : ParkingLot} {i r c : Nat}
    {s : ParkingSpot} (hs : spotAtIdx p i r c = some s) (s2 : ParkingSpot)
    {i2 r2 c2 : Nat} {s3 : ParkingSpot}
    (h : spotAtIdx (updateSpotIdx p i r c s2) i2 r2 c2 = some s3) :
    ∃ s0, spotAtIdx p i2 r2 c2 = some s0 := by
  by_cases htr : i = i2 ∧ r = r2 ∧ c = c2
  · obtain ⟨rfl, rfl, rfl⟩ := htr
    exact ⟨s, hs⟩
  · rw [spotAtIdx_update_ne _ _ _ _ htr] at h
    exact ⟨s3, h⟩

theorem occCount_eq (p : ParkingLot) :
    p.GetOccupiedSpotCount =
      (p.floors.map fun f =>
        (f.spots.map fun row => row.countP fun s => s.isOccupied).sum).sum :=
  rfl

theorem occCount_update {p : ParkingLot} {i r c : Nat} {s : ParkingSpot}
    (hs : spotAtIdx p i r c = some s) (s2 : ParkingSpot) :
    (updateSpotIdx p i r c s2).GetOccupiedSpotCount
        + (if s.isOccupied then 1 else 0)
      = p.GetOccupiedSpotCount + (if s2.isOccupied then 1 else 0) := by
  obtain ⟨f, row, hf, hrow, hcc⟩ := spotAtIdx_unpack hs
  rw [occCount_eq, occCount_eq, spotAtIdx_update_floors]
  have h3 := countP_setIn row c (fun _ => s2) (fun s3 => s3.isOccupied) hcc
  have h2 := sum_map_setIn f.spots r (fun row2 => setIn row2 c fun _ => s2)
    (fun row2 => row2.countP fun s3 => s3.isOccupied) hrow
  have h1 := sum_map_setIn p.floors i
    (fun f2 => { f2 with
      spots := setIn f2.spots r fun row2 => setIn row2 c fun _ => s2 })
    (fun f2 => (f2.spots.map fun row2 =>
      row2.countP fun s3 => s3.isOccupied).sum) hf
  simp only at h1 h2 h3
  omega

theorem wf_update {p : ParkingLot} (hwf : WFStruct p) {i r c : Nat}
    {s2 : ParkingSpot} (hco : s2.floor = i ∧ s2.row = r ∧ s2.column = c) :
    WFStruct (updateSpotIdx p i r c s2) := by
  intro i2 f2 hf2
  rw [spotAtIdx_update_floors] at hf2
  by_cases hi : i = i2
  · subst hi
    rw [getElem?_setIn_self, Option.map_eq_some'] at hf2
    obtain ⟨f, hf, hf2⟩ := hf2
    subst hf2
    obtain ⟨hnum, hlen, hrows, hcells⟩ := hwf i f hf
    refine ⟨hnum, by simpa [length_setIn] using hlen, ?_, ?_⟩
    · intro r2 row2 hrow2
      simp only at hrow2
      by_cases hr : r = r2
      · subst hr
        rw [getElem?_setIn_self, Option.map_eq_some'] at hrow2
        obtain ⟨row, hrow, hrow2⟩ := hrow2
        subst hrow2
        rw [length_setIn]
        exact hrows r row hrow
      · rw [getElem?_setIn_ne _ _ hr] at hrow2
        exact hrows r2 row2 hrow2
    · intro r2 c2 s3 hs3
      simp only at hs3
      by_cases hr : r = r2
      · subst hr
        rw [getElem?_setIn_self] at hs3
        cases hrow : f.spots[r]? with
        | none => rw [hrow] at hs3; simp at hs3
        | some row =>
          rw [hrow] at hs3
          simp only [Option.map_some', Option.some_bind] at hs3
          by_cases hcn : c = c2
          · subst hcn
            rw [getElem?_setIn_self] at hs3
            cases hcell : row[c]? with
            | none => rw [hcell] at hs3; simp at hs3
            | some s0 =>
              rw [hcell] at hs3
              have : s2 = s3 := by simpa using hs3
              subst this
              exact ⟨hco.1, hco.2.1, hco.2.2⟩
          · rw [getElem?_setIn_ne _ _ hcn] at hs3
            exact hcells r c2 s3 (by rw [hrow]; simpa using hs3)
      · rw [getElem?_setIn_ne _ _ hr] at hs3
        exact hcells r2 c2 s3 hs3
  · rw [getElem?_setIn_ne _ _ hi] at hf2
    exact hwf i2 f2 hf2

/-! ### Resolving printed spot IDs against a well-formed lot. -/

theorem find_floor_aux (fls : List ParkingFloor) (off : Nat)
    (hnum : ∀ (j : Nat) (g : ParkingFloor), fls[j]? = some g →
      g.floorNumber = j + off) :
    ∀ (i : Nat) (f : ParkingFloor), fls[i]? = some f →
      fls.find? (fun g => g.floorNumber == i + off) = some f := by
  induction fls generalizing off with
  | nil => intro i f hf; simp at hf
  | cons f0 t ih =>
    intro i f hf
    have h0 : f0.floorNumber = off := by simpa using hnum 0 f0 (by simp)
    cases i with
    | zero =>
      have : f0 = f := by simpa using hf
      subst this
      rw [List.find?_cons_of_pos _ (by simp [h0])]
    | succ i2 =>
      rw [List.find?_cons_of_neg _ (by simp only [h0, beq_iff_eq]; omega)]
      have hnum2 : ∀ (j : Nat) (g : ParkingFloor), t[j]? = some g →
          g.floorNumber = j + (off + 1) := by
        intro j g hg
        have := hnum (j + 1) g (by simpa using hg)
        omega
      have := ih (off + 1) hnum2 i2 f (by simpa using hf)
      rw [show i2 + 1 + off = i2 + (off + 1) by omega]
      exact this

theorem getFloor_of_wf {p : ParkingLot} (hwf : WFStruct p) {i : Nat}
    {f : ParkingFloor} (hf : p.floors[i]? = some f) :
    p.GetFloor i = .ok f := by
  have hfind := find_floor_aux p.floors 0
    (fun j g hg => by simpa using (hwf j g hg).1) i f hf
  rw [ParkingLot.GetFloor]
  simp only [Nat.add_zero] at hfind
  rw [hfind]

theorem getSpotByID_of_spotAtIdx {p : ParkingLot} (hwf : WFStruct p)
    {i r c : Nat} {s : ParkingSpot} (hbi : i < 2 ^ 63) (hbr : r < 2 ^ 63)
    (hbc : c < 2 ^ 63) (hs : spotAtIdx p i r c = some s) :
    p.GetSpotByID (spotIDChars i r c) = .ok s := by
  obtain ⟨f, row, hf, hrow, hcell⟩ := spotAtIdx_unpack hs
  obtain ⟨-, hlen, hrows, -⟩ := hwf i f hf
  rw [ParkingLot.GetSpotByID, parseSpotID_spotIDChars i r c hbi hbr hbc]
  show p.GetSpot i r c = .ok s
  rw [ParkingLot.GetSpot, getFloor_of_wf hwf hf]
  show f.GetSpot r c = .ok s
  have hr : r < f.numRows := by
    obtain ⟨hlt, -⟩ := List.getElem?_eq_some_iff.mp hrow
    omega
  have hc : c < f.numCols := by
    obtain ⟨hlt2, -⟩ := List.getElem?_eq_some_iff.mp hcell
    have hrl := hrows r row hrow
    omega
  rw [ParkingFloor.GetSpot, if_neg (by omega), if_neg (by omega), hrow]
  simp only [Option.some_bind]
  rw [hcell]

theorem updateByFloorNum_aux (fls : List ParkingFloor) (off : Nat)
    (hnum : ∀ (j : Nat) (g : ParkingFloor), fls[j]? = some g →
      g.floorNumber = j + off)
    (g : ParkingFloor → ParkingFloor) :
    ∀ i : Nat, i < fls.length →
      updateSpotByFloorNum.updateFirstFloor fls (i + off) g
        = setIn fls i g := by
  induction fls generalizing off with
  | nil => intro i hi; simp at hi
  | cons f0 t ih =>
    intro i hi
    have h0 : f0.floorNumber = off := by simpa using hnum 0 f0 (by simp)
    cases i with
    | zero =>
      rw [updateSpotByFloorNum.updateFirstFloor,
        if_pos (by simpa using h0)]
      rfl
    | succ i2 =>
      rw [updateSpotByFloorNum.updateFirstFloor,
        if_neg (by rw [h0]; omega)]
      have hnum2 : ∀ (j : Nat) (g2 : ParkingFloor), t[j]? = some g2 →
          g2.floorNumber = j + (off + 1) := by
        intro j g2 hg
        have := hnum (j + 1) g2 (by simpa using hg)
        omega
      have := ih (off + 1) hnum2 i2 (by simpa using hi)
      rw [show i2 + 1 + off = i2 + (off + 1) by omega, this]
      rfl

theorem updateByFloorNum_eq {p : ParkingLot} (hwf : WFStruct p)
    {i : Nat} (hi : i < p.floors.length) (r c : Nat) (s : ParkingSpot) :
    updateSpotByFloorNum p i r c s = updateSpotIdx p i r c s := by
  rw [updateSpotByFloorNum, updateSpotIdx]
  have haux := updateByFloorNum_aux p.floors 0
    (fun j g hg => by simpa using (hwf j g hg).1)
    (fun f => { f with spots := setIn f.spots r fun row => setIn row c fun _ => s })
    i hi
  simp only [Nat.add_zero] at haux
  rw [haux]

/-! ### Reduction of the spot operations. -/

theorem canPark_parts {s : ParkingSpot} {vt : VehicleType}
    (h : s.CanPark vt = true) :
    s.type.IsActive = true ∧ s.isOccupied = false ∧
      s.type.CanParkVehicleType vt = true := by
  rw [ParkingSpot.CanPark] at h
  by_cases hcond : (!s.type.IsActive || s.isOccupied) = true
  · rw [if_pos hcond] at h
    simp at h
  · rw [if_neg hcond] at h
    simp only [Bool.or_eq_true, Bool.not_eq_true'] at hcond
    push_neg at hcond
    refine ⟨?_, ?_, h⟩
    · cases ht : s.type.IsActive with
      | true => rfl
      | false => exact absurd ht hcond.1
    · cases ho : s.isOccupied with
      | false => rfl
      | true => exact absurd ho hcond.2

theorem occupy_success {s : ParkingSpot} {num : Str}
    (ha : s.type.IsActive = true) (ho : s.isOccupied = false)
    (hv : ValidateVehicleNumber num = none) :
    s.Occupy num = (none,
      { s with isOccupied := true,
               vehicleNumber := NormalizeVehicleNumber num }) := by
  rw [ParkingSpot.Occupy, if_neg (by simp [ha]), if_neg (by simp [ho]), hv]

theorem vacate_success {s : ParkingSpot} {num : Str}
    (ha : s.type.IsActive = true) (ho : s.isOccupied = true)
    (he : NormalizeVehicleNumber num = s.vehicleNumber) :
    s.Vacate num = (none,
      { s with isOccupied := false, vehicleNumber := [] }) := by
  rw [ParkingSpot.Vacate, if_neg (by simp [ha]), if_neg (by simp [ho]),
    if_neg (by simp [he])]

/-! ### Preservation of the invariant. -/

theorem updateSpotIdx_parkedVehicles (p : ParkingLot) (i r c : Nat)
    (s : ParkingSpot) :
    (updateSpotIdx p i r c s).parkedVehicles = p.parkedVehicles := rfl

theorem updateSpotIdx_vehicleHistory (p : ParkingLot) (i r c : Nat)
    (s : ParkingSpot) :
    (updateSpotIdx p i r c s).vehicleHistory = p.vehicleHistory := rfl

theorem spotAtIdx_congr_floors {p q : ParkingLot} (h : p.floors = q.floors)
    (i r c : Nat) : spotAtIdx p i r c = spotAtIdx q i r c := by
  rw [spotAtIdx, spotAtIdx, h]

theorem occCount_congr_floors {p q : ParkingLot} (h : p.floors = q.floors) :
    p.GetOccupiedSpotCount = q.GetOccupiedSpotCount := by
  rw [occCount_eq, occCount_eq, h]

theorem wfStruct_congr_floors {p q : ParkingLot} (h : p.floors = q.floors)
    (hq : WFStruct q) : WFStruct p := by
  intro i f hf
  rw [WFStruct] at hq
  exact hq i f (h ▸ hf)

theorem inv_park (p : ParkingLot) (vt : VehicleType) (num : Str)
    (hInv : Inv p) : Inv (p.Park vt num).2 := by
  cases hv : ValidateVehicleNumber num with
  | some e =>
    have h2 : (p.Park vt num).2 = p := by simp [ParkingLot.Park, hv]
    rw [h2]; exact hInv
  | none =>
    cases hl : mapLoad (NormalizeVehicleNumber num) p.parkedVehicles with
    | some sid0 =>
      have h2 : (p.Park vt num).2 = p := by simp [ParkingLot.Park, hv, hl]
      rw [h2]; exact hInv
    | none =>
      cases hfa : lotFirstAvail vt p.floors with
      | none =>
        have h2 : (p.Park vt num).2 = p := by
          simp [ParkingLot.Park, hv, hl, hfa]
        rw [h2]; exact hInv
      | some cand =>
        obtain ⟨i, r, c⟩ := cand
        obtain ⟨⟨s, hs0, hcp⟩, -⟩ := lotFirstAvail_sound hfa
        have hs : spotAtIdx p i r c = some s := hs0
        obtain ⟨ha, ho, -⟩ := canPark_parts hcp
        have hvn : ValidateVehicleNumber (NormalizeVehicleNumber num) = none :=
          validate_normalize hv
        have hidm : NormalizeVehicleNumber (NormalizeVehicleNumber num)
            = NormalizeVehicleNumber num := normalize_idem hv
        obtain ⟨f, row, hf, hrow, hcell⟩ := spotAtIdx_unpack hs
        obtain ⟨hcoF, hcoR, hcoC⟩ := (hInv.wf i f hf).2.2.2 r c s
          (by rw [hrow]; simpa using hcell)
        obtain ⟨s2, hocc2, hs2occ, hs2num, hs2type, hs2fl, hs2r, hs2c⟩ :
            ∃ s2 : ParkingSpot,
              s.Occupy (NormalizeVehicleNumber num) = (none, s2) ∧
              s2.isOccupied = true ∧
              s2.vehicleNumber
                = NormalizeVehicleNumber (NormalizeVehicleNumber num) ∧
              s2.type = s.type ∧ s2.floor = s.floor ∧ s2.row = s.row ∧
              s2.column = s.column :=
          ⟨_, occupy_success ha ho hvn,
            rfl, rfl, rfl, rfl, rfl, rfl⟩
        have hsid : ParkingSpot.GetSpotID s2 = spotIDChars i r c := by
          rw [ParkingSpot.GetSpotID, hs2fl, hs2r, hs2c, hcoF, hcoR, hcoC]
        simp only [ParkingLot.Park, hv, hl, hfa, parkCommitPhase, hs, hocc2,
          updateSpotIdx_parkedVehicles, updateSpotIdx_vehicleHistory, hsid]
        refine ⟨?_, ?_, ?_, ?_, ?_, ?_⟩
        · exact wfStruct_congr_floors rfl (wf_update hInv.wf
            ⟨hs2fl.trans hcoF, hs2r.trans hcoR, hs2c.trans hcoC⟩)
        · exact nodup_keys_store _ hInv.dirNodup
        · intro v s3 hmem
          rcases mem_store_elim hmem with he | ⟨hold, hvne⟩
          · have hv2 : v = NormalizeVehicleNumber num :=
              congrArg (fun q => q.1) he
            have hsv : s3 = spotIDChars i r c := congrArg (fun q => q.2) he
            subst hv2
            exact ⟨hidm, i, r, c, s2, hsv, spotAtIdx_update_self hs s2,
              hs2occ, hs2num.trans hidm⟩
          · obtain ⟨hNv, i0, r0, c0, spot0, hsid0, hat0, hocc0, hnum0⟩ :=
              hInv.dirSound v s3 hold
            have hne : ¬(i = i0 ∧ r = r0 ∧ c = c0) := by
              rintro ⟨rfl, rfl, rfl⟩
              rw [hs] at hat0
              have hzz : spot0 = s := by simpa using hat0.symm
              rw [hzz, ho] at hocc0
              simp at hocc0
            have hat2 : spotAtIdx (updateSpotIdx p i r c s2) i0 r0 c0
                = some spot0 := by
              rw [spotAtIdx_update_ne _ _ _ _ hne]
              exact hat0
            exact ⟨hNv, i0, r0, c0, spot0, hsid0, hat2, hocc0, hnum0⟩
        · intro i2 r2 c2 spot2 hat2 hocc2b
          by_cases htr : i = i2 ∧ r = r2 ∧ c = c2
          · obtain ⟨rfl, rfl, rfl⟩ := htr
            have hup : spotAtIdx (updateSpotIdx p i r c s2) i r c = some s2 :=
              spotAtIdx_update_self hs s2
            have hat3 : spotAtIdx (updateSpotIdx p i r c s2) i r c
                = some spot2 := hat2
            have hsp : spot2 = s2 := by
              have hq := hat3.symm.trans hup
              simpa using hq
            subst hsp
            refine ⟨by rw [hs2type]; exact ha, ?_⟩
            show mapLoad spot2.vehicleNumber
              (mapStore (NormalizeVehicleNumber num) (spotIDChars i r c)
                p.parkedVehicles) = _
            rw [hs2num, hidm, mapLoad_store_self]
          · have hat3 : spotAtIdx p i2 r2 c2 = some spot2 := by
              have hat4 : spotAtIdx (updateSpotIdx p i r c s2) i2 r2 c2
                  = some spot2 := hat2
              rwa [spotAtIdx_update_ne _ _ _ _ htr] at hat4
            obtain ⟨hact, hload⟩ := hInv.occSound i2 r2 c2 spot2 hat3 hocc2b
            refine ⟨hact, ?_⟩
            have hvne : spot2.vehicleNumber ≠ NormalizeVehicleNumber num := by
              intro he
              rw [he, hl] at hload
              simp at hload
            show mapLoad spot2.vehicleNumber
              (mapStore (NormalizeVehicleNumber num) (spotIDChars i r c)
                p.parkedVehicles) = _
            rw [mapLoad_store_ne hvne]
            exact hload
        · have hcnt := occCount_update hs s2
          rw [ho, hs2occ] at hcnt
          simp at hcnt
          have hlen := length_store_of_none hl (spotIDChars i r c)
          have holdc := hInv.count
          show (updateSpotIdx p i r c s2).GetOccupiedSpotCount
            = (mapStore (NormalizeVehicleNumber num) (spotIDChars i r c)
                p.parkedVehicles).length
          omega
        · intro i2 r2 c2 spot3 hat2
          have hat3 : spotAtIdx (updateSpotIdx p i r c s2) i2 r2 c2
              = some spot3 := hat2
          obtain ⟨s0, h0⟩ := spotAtIdx_update_some hs s2 hat3
          exact hInv.small i2 r2 c2 s0 h0

/-- The invariant only reads the floors and the directory, not the name or
the history map. -/
theorem inv_congr {p q : ParkingLot} (hf : p.floors = q.floors)
    (hv : p.parkedVehicles = q.parkedVehicles) (h : Inv q) : Inv p := by
  refine ⟨wfStruct_congr_floors hf h.wf, ?_, ?_, ?_, ?_, ?_⟩
  · rw [hv]; exact h.dirNodup
  · intro v s hmem
    rw [hv] at hmem
    obtain ⟨hNv, i, r, c, spot, hsid, hat, hocc, hnum⟩ := h.dirSound v s hmem
    exact ⟨hNv, i, r, c, spot, hsid,
      (spotAtIdx_congr_floors hf i r c).trans hat, hocc, hnum⟩
  · intro i r c spot hat hocc
    rw [spotAtIdx_congr_floors hf] at hat
    obtain ⟨hact, hload⟩ := h.occSound i r c spot hat hocc
    exact ⟨hact, by rw [hv]; exact hload⟩
  · rw [occCount_congr_floors hf, hv]; exact h.count
  · intro i r c spot hat
    rw [spotAtIdx_congr_floors hf] at hat
    exact h.small i r c spot hat

theorem inv_unpark (p : ParkingLot) (sid num : Str) (hInv : Inv p) :
    Inv (p.Unpark sid num).2 := by
  cases hv : ValidateVehicleNumber num with
  | some e =>
    have h2 : (p.Unpark sid num).2 = p := by simp [ParkingLot.Unpark, hv]
    rw [h2]; exact hInv
  | none =>
    cases hl : mapLoad (NormalizeVehicleNumber num) p.parkedVehicles with
    | none =>
      have h2 : (p.Unpark sid num).2 = p := by simp [ParkingLot.Unpark, hv, hl]
      rw [h2]; exact hInv
    | some currentSid =>
      by_cases hcur : currentSid = sid
      · subst hcur
        have hmem : (NormalizeVehicleNumber num, currentSid)
            ∈ p.parkedVehicles := load_some_mem hl
        obtain ⟨hNv, i, r, c, spot, hsid, hat, hocc, hnum⟩ :=
          hInv.dirSound _ _ hmem
        subst hsid
        obtain ⟨hact, -⟩ := hInv.occSound i r c spot hat hocc
        have hidm : NormalizeVehicleNumber (NormalizeVehicleNumber num)
            = NormalizeVehicleNumber num := normalize_idem hv
        obtain ⟨spot2, hvac2, hs2occ, hs2type, hs2fl, hs2r, hs2c⟩ :
            ∃ spot2 : ParkingSpot,
              spot.Vacate (NormalizeVehicleNumber num) = (none, spot2) ∧
              spot2.isOccupied = false ∧ spot2.type = spot.type ∧
              spot2.floor = spot.floor ∧ spot2.row = spot.row ∧
              spot2.column = spot.column :=
          ⟨_, vacate_success hact hocc (by rw [hidm]; exact hnum.symm),
            rfl, rfl, rfl, rfl, rfl⟩
        obtain ⟨hbi, hbr, hbc⟩ := hInv.small i r c spot hat
        have hgid : p.GetSpotByID (spotIDChars i r c) = .ok spot :=
          getSpotByID_of_spotAtIdx hInv.wf hbi hbr hbc hat
        obtain ⟨f, row, hf, hrow, hcell⟩ := spotAtIdx_unpack hat
        obtain ⟨hilt, -⟩ := List.getElem?_eq_some_iff.mp hf
        have hupd : updateSpotByFloorNum p i r c spot2
            = updateSpotIdx p i r c spot2 :=
          updateByFloorNum_eq hInv.wf hilt r c spot2
        obtain ⟨hcoF, hcoR, hcoC⟩ := (hInv.wf i f hf).2.2.2 r c spot
          (by rw [hrow]; simpa using hcell)
        have hCan : Inv (⟨p.name, (updateSpotIdx p i r c spot2).floors,
            mapDelete (NormalizeVehicleNumber num) p.parkedVehicles,
            p.vehicleHistory⟩ : ParkingLot) := by
          refine ⟨?_, ?_, ?_, ?_, ?_, ?_⟩
          · exact wfStruct_congr_floors rfl (wf_update hInv.wf
              ⟨hs2fl.trans hcoF, hs2r.trans hcoR, hs2c.trans hcoC⟩)
          · show ((mapDelete (NormalizeVehicleNumber num)
              p.parkedVehicles).map fun q2 => q2.1).Nodup
            exact nodup_keys_delete _ hInv.dirNodup
          · intro v s3 hmem2
            obtain ⟨hold, hvne⟩ := mem_delete_elim hmem2
            obtain ⟨hNv0, i0, r0, c0, spot0, hsid0, hat0, hocc0, hnum0⟩ :=
              hInv.dirSound v s3 hold
            have hne : ¬(i = i0 ∧ r = r0 ∧ c = c0) := by
              rintro ⟨rfl, rfl, rfl⟩
              rw [hat] at hat0
              have hzz : spot0 = spot := by simpa using hat0.symm
              rw [hzz] at hnum0
              exact hvne (hnum0 ▸ hnum ▸ rfl)
            have hat2 : spotAtIdx (updateSpotIdx p i r c spot2) i0 r0 c0
                = some spot0 := by
              rw [spotAtIdx_update_ne _ _ _ _ hne]
              exact hat0
            exact ⟨hNv0, i0, r0, c0, spot0, hsid0, hat2, hocc0, hnum0⟩
          · intro i2 r2 c2 spot3 hat2 hocc2
            by_cases htr : i = i2 ∧ r = r2 ∧ c = c2
            · obtain ⟨rfl, rfl, rfl⟩ := htr
              have hup : spotAtIdx (updateSpotIdx p i r c spot2) i r c
                  = some spot2 := spotAtIdx_update_self hat spot2
              have hsp : spot3 = spot2 := by
                have hq := hat2.symm.trans hup
                simpa using hq
              rw [hsp, hs2occ] at hocc2
              simp at hocc2
            · have hat3 : spotAtIdx p i2 r2 c2 = some spot3 := by
                have hat4 : spotAtIdx (updateSpotIdx p i r c spot2) i2 r2 c2
                    = some spot3 := hat2
                rwa [spotAtIdx_update_ne _ _ _ _ htr] at hat4
              obtain ⟨hact2, hload2⟩ := hInv.occSound i2 r2 c2 spot3 hat3 hocc2
              refine ⟨hact2, ?_⟩
              have hvne2 : spot3.vehicleNumber ≠ NormalizeVehicleNumber num := by
                intro he
                rw [he, hl] at hload2
                have hz : spotIDChars i r c = spotIDChars i2 r2 c2 := by
                  simpa using hload2
                obtain ⟨hbi2, hbr2, hbc2⟩ := hInv.small i2 r2 c2 spot3 hat3
                obtain ⟨hz1, hz2, hz3⟩ :=
                  spotIDChars_inj hbi hbr hbc hbi2 hbr2 hbc2 hz
                exact htr ⟨hz1, hz2, hz3⟩
              show mapLoad spot3.vehicleNumber
                (mapDelete (NormalizeVehicleNumber num) p.parkedVehicles)
                = some (spotIDChars i2 r2 c2)
              rw [mapLoad_delete_ne hvne2]
              exact hload2
          · have hcnt := occCount_update hat spot2
            rw [hocc, hs2occ] at hcnt
            simp at hcnt
            have hlen := length_delete_of_some hInv.dirNodup hl
            have holdc := hInv.count
            show (updateSpotIdx p i r c spot2).GetOccupiedSpotCount
              = (mapDelete (NormalizeVehicleNumber num)
                  p.parkedVehicles).length
            omega
          · intro i2 r2 c2 spot3 hat2
            have hat3 : spotAtIdx (updateSpotIdx p i r c spot2) i2 r2 c2
                = some spot3 := hat2
            obtain ⟨s0, h0⟩ := spotAtIdx_update_some hat spot2 hat3
            exact hInv.small i2 r2 c2 s0 h0
        have hmain : ∀ q : ParkingLot,
            q.floors = (updateSpotIdx p i r c spot2).floors →
            q.parkedVehicles
              = mapDelete (NormalizeVehicleNumber num) p.parkedVehicles →
            Inv q := fun q hqf hqv =>
          inv_congr (q := (⟨p.name, (updateSpotIdx p i r c spot2).floors,
            mapDelete (NormalizeVehicleNumber num) p.parkedVehicles,
            p.vehicleHistory⟩ : ParkingLot)) hqf hqv hCan
        cases hhist : mapLoad (NormalizeVehicleNumber num) p.vehicleHistory with
        | none =>
          have h2 := hmain (p.Unpark (spotIDChars i r c) num).2
          rw [ParkingLot.Unpark] at h2 ⊢
          simp only [hv, hl, ne_eq, not_true_eq_false, if_false, hgid, hvac2,
            parseSpotID_spotIDChars i r c hbi hbr hbc, hupd,
            updateSpotIdx_parkedVehicles,
            updateSpotIdx_vehicleHistory, hhist] at h2 ⊢
          exact h2 trivial trivial
        | some hist =>
          have h2 := hmain (p.Unpark (spotIDChars i r c) num).2
          rw [ParkingLot.Unpark] at h2 ⊢
          simp only [hv, hl, ne_eq, not_true_eq_false, if_false, hgid, hvac2,
            parseSpotID_spotIDChars i r c hbi hbr hbc, hupd,
            updateSpotIdx_parkedVehicles,
            updateSpotIdx_vehicleHistory, hhist] at h2 ⊢
          exact h2 trivial trivial
      · have h2 : (p.Unpark sid num).2 = p := by
          have hne : currentSid ≠ sid := hcur
          simp [ParkingLot.Unpark, hv, hl, hne]
        rw [h2]; exact hInv

theorem vacate_snd_fields (s : ParkingSpot) (n : Str) :
    (s.Vacate n).2.floor = s.floor ∧ (s.Vacate n).2.row = s.row ∧
      (s.Vacate n).2.column = s.column := by
  rw [ParkingSpot.Vacate]
  split
  · exact ⟨rfl, rfl, rfl⟩
  · split
    · exact ⟨rfl, rfl, rfl⟩
    · split
      · exact ⟨rfl, rfl, rfl⟩
      · exact ⟨rfl, rfl, rfl⟩

theorem spotAtIdx_reset (p : ParkingLot) (i r c : Nat) :
    spotAtIdx p.Reset i r c = (spotAtIdx p i r c).map fun s =>
      if s.isOccupied then (s.Vacate s.vehicleNumber).2 else s := by
  rw [spotAtIdx, spotAtIdx]
  show ((p.floors.map _)[i]?).bind _ = _
  rw [List.getElem?_map]
  cases hf : p.floors[i]? with
  | none => rfl
  | some f =>
    simp only [Option.map_some', Option.some_bind]
    show ((f.spots.map _)[r]?).bind _ = _
    rw [List.getElem?_map]
    cases hrow : f.spots[r]? with
    | none => rfl
    | some row =>
      simp only [Option.map_some', Option.some_bind]
      rw [List.getElem?_map]

theorem occCount_eq_zero {q : ParkingLot}
    (h : ∀ (i r c : Nat) (s : ParkingSpot), spotAtIdx q i r c = some s →
      s.isOccupied = false) : q.GetOccupiedSpotCount = 0 := by
  rw [occCount_eq]
  apply List.sum_eq_zero
  intro x hx
  obtain ⟨f, hfmem, hfx⟩ := List.mem_map.mp hx
  obtain ⟨i, hfi⟩ := List.mem_iff_getElem?.mp hfmem
  subst hfx
  apply List.sum_eq_zero
  intro y hy
  obtain ⟨row, hrmem, hry⟩ := List.mem_map.mp hy
  obtain ⟨r, hri⟩ := List.mem_iff_getElem?.mp hrmem
  subst hry
  rw [List.countP_eq_zero]
  intro s hs
  obtain ⟨c, hci⟩ := List.mem_iff_getElem?.mp hs
  have hat : spotAtIdx q i r c = some s := by
    rw [spotAtIdx, hfi]
    simp only [Option.some_bind]
    rw [hri]
    simp only [Option.some_bind]
    exact hci
  simp [h i r c s hat]

theorem inv_reset (p : ParkingLot) (hInv : Inv p) : Inv p.Reset := by
  have hvacall : ∀ (i r c : Nat) (s : ParkingSpot),
      spotAtIdx p.Reset i r c = some s → s.isOccupied = false := by
    intro i r c s hat
    rw [spotAtIdx_reset, Option.map_eq_some'] at hat
    obtain ⟨s0, hs0, hg⟩ := hat
    by_cases hocc : s0.isOccupied = true
    · rw [if_pos hocc] at hg
      obtain ⟨hact, hload⟩ := hInv.occSound i r c s0 hs0 hocc
      have hmem := load_some_mem hload
      obtain ⟨hNv, -⟩ := hInv.dirSound _ _ hmem
      have hvs := vacate_success hact hocc hNv
      rw [hvs] at hg
      rw [← hg]
    · rw [if_neg hocc] at hg
      rw [← hg]
      simpa using hocc
  have hwfr : WFStruct p.Reset := by
    intro i f2 hf2
    have hfl : p.Reset.floors = p.floors.map fun f =>
        { f with spots := f.spots.map fun row => row.map fun s =>
            if s.isOccupied then (s.Vacate s.vehicleNumber).2 else s } := rfl
    rw [hfl, List.getElem?_map, Option.map_eq_some'] at hf2
    obtain ⟨f, hf, hff⟩ := hf2
    subst hff
    obtain ⟨hnum, hlen, hrows, hcells⟩ := hInv.wf i f hf
    refine ⟨hnum, by simpa using hlen, ?_, ?_⟩
    · intro r row2 hrow2
      simp only [List.getElem?_map, Option.map_eq_some'] at hrow2
      obtain ⟨row, hrow, hrr⟩ := hrow2
      subst hrr
      simpa using hrows r row hrow
    · intro r c s2 hs2
      simp only [List.getElem?_map] at hs2
      cases hrow : f.spots[r]? with
      | none => rw [hrow] at hs2; simp at hs2
      | some row =>
        rw [hrow] at hs2
        simp only [Option.map_some', Option.some_bind,
          List.getElem?_map] at hs2
        cases hcell : row[c]? with
        | none => rw [hcell] at hs2; simp at hs2
        | some s0 =>
          rw [hcell] at hs2
          have hg : (if s0.isOccupied then (s0.Vacate s0.vehicleNumber).2
              else s0) = s2 := by simpa using hs2
          obtain ⟨hc1, hc2, hc3⟩ := hcells r c s0 (by rw [hrow]; simpa using hcell)
          by_cases hocc : s0.isOccupied = true
          · rw [if_pos hocc] at hg
            obtain ⟨hv1, hv2, hv3⟩ := vacate_snd_fields s0 s0.vehicleNumber
            rw [← hg]
            exact ⟨hv1.trans hc1, hv2.trans hc2, hv3.trans hc3⟩
          · rw [if_neg hocc] at hg
            rw [← hg]
            exact ⟨hc1, hc2, hc3⟩
  refine ⟨hwfr, ?_, ?_, ?_, ?_, ?_⟩
  · show (([] : List (Str × Str)).map fun q2 => q2.1).Nodup
    simp
  · intro v s hmem
    exact absurd hmem (by simp [ParkingLot.Reset])
  · intro i r c spot hat hocc
    rw [hvacall i r c spot hat] at hocc
    simp at hocc
  · rw [occCount_eq_zero hvacall]
    rfl
  · intro i r c spot hat
    rw [spotAtIdx_reset, Option.map_eq_some'] at hat
    obtain ⟨s0, hs0, -⟩ := hat
    exact hInv.small i r c s0 hs0

theorem mapM_ok_pointwise {ε α β : Type} (g : α → Except ε β) :
    ∀ (l : List α) (out : List β), l.mapM g = .ok out →
      out.length = l.length ∧ ∀ (j : Nat) (b : β), out[j]? = some b →
        ∃ a, l[j]? = some a ∧ g a = .ok b := by
  intro l
  induction l with
  | nil =>
    intro out h
    rw [← List.mapM'_eq_mapM] at h
    simp only [List.mapM'] at h
    have hout : out = [] := by
      simp only [pure, Except.pure] at h
      cases h; rfl
    subst hout
    exact ⟨rfl, by intro j b hb; simp at hb⟩
  | cons a t ih =>
    intro out h
    rw [← List.mapM'_eq_mapM] at h
    simp only [List.mapM'] at h
    rw [List.mapM'_eq_mapM] at h
    cases hga : g a with
    | error e => rw [hga] at h; simp [Bind.bind, Except.bind] at h
    | ok b0 =>
      rw [hga] at h
      cases hmt : t.mapM g with
      | error e =>
        rw [hmt] at h
        simp [Bind.bind, Except.bind] at h
      | ok bs =>
        rw [hmt] at h
        have hout : out = b0 :: bs := by
          simp only [Bind.bind, Except.bind, Functor.map, Except.map] at h
          cases h; rfl
        subst hout
        obtain ⟨hl, hp⟩ := ih bs hmt
        refine ⟨by simp [hl], ?_⟩
        intro j b hb
        cases j with
        | zero =>
          simp at hb
          exact ⟨a, by simp, by rw [hga, hb]⟩
        | succ j =>
          simp only [List.getElem?_cons_succ] at hb ⊢
          exact hp j b hb

theorem createParkingFloor_ok {i rows cols : Nat} {types : List (List SpotType)}
    {f : ParkingFloor} (h : CreateParkingFloor i rows cols types = .ok f) :
    f.floorNumber = i ∧ f.numRows = rows ∧ f.numCols = cols ∧
      rows ≤ 1000 ∧ cols ≤ 1000 ∧
      types.length = rows ∧ (∀ row ∈ types, row.length = cols) ∧
      f.spots = (types.enum.map fun p => p.2.enum.map fun q =>
        ({ type := q.2, floor := i, row := p.1, column := q.1,
           isOccupied := false, vehicleNumber := [] } : ParkingSpot)) := by
  rw [CreateParkingFloor] at h
  split at h
  · exact absurd h (by simp)
  split at h
  · exact absurd h (by simp)
  split at h
  · exact absurd h (by simp)
  split at h
  · exact absurd h (by simp)
  rename_i h1 h2 h3 h4
  injection h with h5
  subst h5
  refine ⟨rfl, rfl, rfl, by omega, by omega, not_not.mp h3, ?_, rfl⟩
  intro row hrow
  simp only [Bool.not_eq_true, Bool.not_eq_false', List.all_eq_true,
    decide_eq_true_eq] at h4
  exact h4 row hrow

theorem createParkingLot_ok {name : Str} {nf rows cols : Nat}
    {lot : ParkingLot} (h : CreateParkingLot name nf rows cols = .ok lot) :
    lot.parkedVehicles = [] ∧ lot.vehicleHistory = [] ∧
      lot.floors.length ≤ 8 ∧
      ∃ L : Layout,
        L.enum.mapM (fun p => CreateParkingFloor p.1 rows cols p.2) =
          .ok lot.floors := by
  rw [CreateParkingLot] at h
  split at h
  · exact absurd h (by simp)
  split at h
  · exact absurd h (by simp)
  split at h
  · exact absurd h (by simp)
  cases hL : NewSpotLayout nf rows cols with
  | error e => rw [hL] at h; exact absurd h (by simp [Except.bind])
  | ok L =>
    rw [hL] at h
    have h2 : ((L.enum.mapM fun p => CreateParkingFloor p.1 rows cols p.2).bind
        fun floors => NewParkingLot name floors) = Except.ok lot := h
    cases hm : L.enum.mapM fun p => CreateParkingFloor p.1 rows cols p.2 with
    | error e => rw [hm] at h2; exact absurd h2 (by simp [Except.bind])
    | ok floors =>
      rw [hm] at h2
      have h3 : NewParkingLot name floors = Except.ok lot := h2
      rw [NewParkingLot] at h3
      split at h3
      · exact absurd h3 (by simp)
      split at h3
      · exact absurd h3 (by simp)
      rename_i h8
      split at h3
      · exact absurd h3 (by simp)
      injection h3 with h5
      subst h5
      exact ⟨rfl, rfl, Nat.not_lt.mp h8, L, hm⟩

theorem inv_created {name : Str} {nf rows cols : Nat} {lot : ParkingLot}
    (h : CreateParkingLot name nf rows cols = .ok lot) : Inv lot := by
  obtain ⟨hpv, hvh, h8, L, hm⟩ := createParkingLot_ok h
  obtain ⟨hlen, hpt⟩ := mapM_ok_pointwise _ _ _ hm
  have hcell : ∀ (j : Nat) (f : ParkingFloor), lot.floors[j]? = some f →
      WFFloorAt j f ∧ ∀ (r c : Nat) (s : ParkingSpot),
        ((f.spots[r]?).bind fun row => row[c]?) = some s →
        s.isOccupied = false := by
    intro j f hf
    obtain ⟨a, ha, hcf⟩ := hpt j f hf
    rw [List.getElem?_enum] at ha
    rw [Option.map_eq_some'] at ha
    obtain ⟨types, htypes, haeq⟩ := ha
    subst haeq
    obtain ⟨hfn, hnr, hnc, hrb, hcb, hlt, hallc, hsp⟩ :=
      createParkingFloor_ok hcf
    have hrowshape : ∀ (r : Nat) (row : List ParkingSpot),
        f.spots[r]? = some row → ∃ trow : List SpotType,
          types[r]? = some trow ∧
          row = trow.enum.map fun q =>
            ({ type := q.2, floor := j, row := r, column := q.1,
               isOccupied := false, vehicleNumber := [] } : ParkingSpot) := by
      intro r row hrow
      rw [hsp, List.getElem?_map, List.getElem?_enum] at hrow
      cases htr : types[r]? with
      | none => rw [htr] at hrow; simp at hrow
      | some trow =>
        rw [htr] at hrow
        simp only [Option.map_some', Option.some_inj] at hrow
        exact ⟨trow, rfl, hrow.symm⟩
    have hcellval : ∀ (r c : Nat) (s : ParkingSpot),
        ((f.spots[r]?).bind fun row => row[c]?) = some s →
        s.floor = j ∧ s.row = r ∧ s.column = c ∧ s.isOccupied = false := by
      intro r c s hs
      cases hrow : f.spots[r]? with
      | none => rw [hrow] at hs; simp at hs
      | some row =>
        rw [hrow] at hs
        simp only [Option.some_bind] at hs
        obtain ⟨trow, htr, hroweq⟩ := hrowshape r row hrow
        rw [hroweq, List.getElem?_map, List.getElem?_enum] at hs
        cases htc : trow[c]? with
        | none => rw [htc] at hs; simp at hs
        | some t =>
          rw [htc] at hs
          simp only [Option.map_some', Option.some_inj] at hs
          rw [← hs]
          exact ⟨rfl, rfl, rfl, rfl⟩
    refine ⟨⟨hfn, ?_, ?_, ?_⟩, ?_⟩
    · rw [hsp]
      simp [List.enum_length, hlt, hnr]
    · intro r row hrow
      obtain ⟨trow, htr, hroweq⟩ := hrowshape r row hrow
      rw [hroweq, hnc]
      simp only [List.length_map, List.enum_length]
      exact hallc trow (List.mem_iff_getElem?.mpr ⟨r, htr⟩)
    · intro r c s hs
      obtain ⟨h1, h2, h3, -⟩ := hcellval r c s hs
      exact ⟨h1, h2, h3⟩
    · intro r c s hs
      obtain ⟨-, -, -, h4⟩ := hcellval r c s hs
      exact h4
  have hunocc : ∀ (i r c : Nat) (s : ParkingSpot),
      spotAtIdx lot i r c = some s → s.isOccupied = false := by
    intro i r c s hat
    rw [spotAtIdx] at hat
    cases hf : lot.floors[i]? with
    | none => rw [hf] at hat; simp at hat
    | some f =>
      rw [hf] at hat
      simp only [Option.some_bind] at hat
      exact (hcell i f hf).2 r c s hat
  have hsmall : ∀ (i r c : Nat) (spot : ParkingSpot),
      spotAtIdx lot i r c = some spot →
      i < 2 ^ 63 ∧ r < 2 ^ 63 ∧ c < 2 ^ 63 := by
    intro i r c spot hat
    obtain ⟨f, row, hf, hrow, hcel⟩ := spotAtIdx_unpack hat
    obtain ⟨hwff, -⟩ := hcell i f hf
    obtain ⟨-, hlen2, hrows2, -⟩ := hwff
    obtain ⟨a, ha, hcf⟩ := hpt i f hf
    obtain ⟨-, hnr, hnc, hrb, hcb, -, -, -⟩ := createParkingFloor_ok hcf
    obtain ⟨hi, -⟩ := List.getElem?_eq_some_iff.mp hf
    obtain ⟨hr, -⟩ := List.getElem?_eq_some_iff.mp hrow
    obtain ⟨hc, -⟩ := List.getElem?_eq_some_iff.mp hcel
    have hrowlen := hrows2 r row hrow
    refine ⟨?_, ?_, ?_⟩ <;> omega
  refine ⟨fun j f hf => (hcell j f hf).1, ?_, ?_, ?_, ?_, hsmall⟩
  · rw [hpv]; simp
  · intro v s hmem
    rw [hpv] at hmem
    simp at hmem
  · intro i r c spot hat hocc
    rw [hunocc i r c spot hat] at hocc
    simp at hocc
  · rw [occCount_eq_zero hunocc, hpv]
    rfl

/-- Every reachable state satisfies the invariant. -/
theorem reachable_inv {p : ParkingLot} (h : Reachable p) : Inv p := by
  induction h with
  | created name nf rows cols lot hok => exact inv_created hok
  | park lot vt num _ ih => exact inv_park lot vt num ih
  | unpark lot sid num _ ih => exact inv_unpark lot sid num ih
  | reset lot _ ih => exact inv_reset lot ih

/-! ## The claims. -/

/-- C1: in every lot state reachable from `CreateParkingLot` by any finite
sequence of `Park`, `Unpark` and `Reset` operations, the number of occupied
spots across all floors (`GetOccupiedSpotCount`) equals the number of
entries in the vehicle directory (`GetParkedVehicleCount`). -/
theorem C1_counts_agree (p : ParkingLot) (h : Reachable p) :
    p.GetOccupiedSpotCount = p.GetParkedVehicleCount :=
  (reachable_inv h).count

theorem C1_counts_agree_witness :
    Reachable lotB ∧ lotB.GetOccupiedSpotCount = lotB.GetParkedVehicleCount :=
  have hr : Reachable lotB := Reachable.park lotA .bicycle "KA 1".toList
    (Reachable.created "T".toList 1 1 3 lotA rfl)
  ⟨hr, C1_counts_agree lotB hr⟩

/-- C2: in every reachable lot state, every directory entry `(v, s)`
resolves: `GetSpotByID s` succeeds, the resolved spot is occupied, and its
stored occupant equals `v`. -/
theorem C2_directory_sound (p : ParkingLot) (h : Reachable p) (v s : Str)
    (hmem : (v, s) ∈ p.parkedVehicles) :
    ∃ spot : ParkingSpot, p.GetSpotByID s = .ok spot ∧
      spot.isOccupied = true ∧ spot.vehicleNumber = v := by
  obtain ⟨-, i, r, c, spot, hsid, hat, hocc, hnum⟩ :=
    (reachable_inv h).dirSound v s hmem
  obtain ⟨hbi, hbr, hbc⟩ := (reachable_inv h).small i r c spot hat
  refine ⟨spot, ?_, hocc, hnum⟩
  rw [hsid]
  exact getSpotByID_of_spotAtIdx (reachable_inv h).wf hbi hbr hbc hat

theorem C2_directory_sound_witness :
    Reachable lotB ∧ ("KA 1".toList, "0-0-0".toList) ∈ lotB.parkedVehicles ∧
      ∃ spot, lotB.GetSpotByID "0-0-0".toList = .ok spot ∧
        spot.isOccupied = true ∧ spot.vehicleNumber = "KA 1".toList :=
  have hr : Reachable lotB := Reachable.park lotA .bicycle "KA 1".toList
    (Reachable.created "T".toList 1 1 3 lotA rfl)
  have hm : ("KA 1".toList, "0-0-0".toList) ∈ lotB.parkedVehicles := by decide
  ⟨hr, hm, C2_directory_sound lotB hr _ _ hm⟩

/-- C3: for a reachable lot, a valid vehicle number not currently parked:
when `Park` succeeds it returns the ID of the cell that is lexicographically
least (lowest floor index, then lowest row, then lowest column) among all
cells whose spot satisfies `CanPark vt`; and `Park` fails with the
`NO_SPACE_AVAILABLE` error exactly when no spot in the lot satisfies
`CanPark vt`. -/
theorem C3_first_fit (p : ParkingLot) (hre : Reachable p) (vt : VehicleType)
    (num : Str) (hv : ValidateVehicleNumber num = none)
    (hnp : mapLoad (NormalizeVehicleNumber num) p.parkedVehicles = none) :
    (∀ sid, (p.Park vt num).1 = .ok sid →
      ∃ (i r c : Nat) (s : ParkingSpot), sid = spotIDChars i r c ∧
        spotAtIdx p i r c = some s ∧ s.CanPark vt = true ∧
        ∀ (i2 r2 c2 : Nat) (s2 : ParkingSpot),
          spotAtIdx p i2 r2 c2 = some s2 → s2.CanPark vt = true →
          lexLE3 (i, r, c) (i2, r2, c2)) ∧
    ((p.Park vt num).1 = .error (.noSpace vt.str) ↔
      ∀ (i r c : Nat) (s : ParkingSpot), spotAtIdx p i r c = some s →
        s.CanPark vt = false) := by
  have hInv := reachable_inv hre
  simp only [ParkingLot.Park, hv, hnp]
  cases hscan : lotFirstAvail vt p.floors with
  | none =>
    simp only [hscan]
    refine ⟨?_, ?_, ?_⟩
    · intro sid hsid
      simp at hsid
    · intro _ i r c s hat
      exact lotFirstAvail_none hscan i r c s hat
    · intro _
      trivial
  | some cand =>
    obtain ⟨i, r, c⟩ := cand
    obtain ⟨⟨s, hat, hcan⟩, hmin⟩ := lotFirstAvail_sound hscan
    have hat2 : spotAtIdx p i r c = some s := hat
    obtain ⟨ha, ho, -⟩ := canPark_parts hcan
    have hvn : ValidateVehicleNumber (NormalizeVehicleNumber num) = none :=
      validate_normalize hv
    have hocc := occupy_success ha ho hvn
    obtain ⟨f, row, hf, hrow, hcell⟩ := spotAtIdx_unpack hat2
    obtain ⟨-, -, -, hcoords⟩ := hInv.wf i f hf
    obtain ⟨hfl, hr2, hc2⟩ := hcoords r c s (by rw [hrow]; simpa using hcell)
    simp only [hscan, parkCommitPhase, hat2, hocc]
    refine ⟨?_, ?_, ?_⟩
    · intro sid hsid
      simp only [Except.ok.injEq] at hsid
      refine ⟨i, r, c, s, ?_, hat2, hcan,
        fun i2 r2 c2 s2 h2 hc2' => hmin i2 r2 c2 s2 h2 hc2'⟩
      rw [← hsid]
      show spotIDChars s.floor s.row s.column = spotIDChars i r c
      rw [hfl, hr2, hc2]
    · intro habs
      simp at habs
    · intro hall
      exact absurd (hall i r c s hat2) (by simp [hcan])

theorem C3_first_fit_witness :
    Reachable lotA ∧ ValidateVehicleNumber "KA 1".toList = none ∧
      mapLoad (NormalizeVehicleNumber "KA 1".toList) lotA.parkedVehicles
        = none ∧
      ((lotA.Park .bicycle "KA 1".toList).1 =
          .error (.noSpace VehicleType.bicycle.str) ↔
        ∀ (i r c : Nat) (s : ParkingSpot), spotAtIdx lotA i r c = some s →
          s.CanPark .bicycle = false) :=
  have hr : Reachable lotA := Reachable.created "T".toList 1 1 3 lotA rfl
  have hv : ValidateVehicleNumber "KA 1".toList = none := by decide
  have hnp : mapLoad (NormalizeVehicleNumber "KA 1".toList) lotA.parkedVehicles
      = none := by decide
  ⟨hr, hv, hnp, (C3_first_fit lotA hr .bicycle "KA 1".toList hv hnp).2⟩

/-- C4 counterexample: for `(floors, rows, columns) = (1, 2, 6)` — in range
and not degenerate — the generated layout (where the force-patch is a no-op
because all three active types are present) assigns cell
`(floor 0, row 1, column 2)` the motorcycle type, while the claimed pattern
(`⌊6/4⌋ = 1` bicycle column, then `⌊6/4⌋ = 1` motorcycle column, remainder
automobile) assigns that cell the automobile type: the code's motorcycle
band extends to column `⌊columns/2⌋`, not `2·⌊columns/4⌋`. -/
theorem C4_layout_counterexample :
    forcePatch 1 2 6 (buildLayout 1 2 6) = buildLayout 1 2 6 ∧
    NewSpotLayout 1 2 6 = .ok (buildLayout 1 2 6) ∧
    layoutGet (buildLayout 1 2 6) 0 1 2 = some .motorcycle ∧
    specFractionPattern 6 1 2 = .automobile := by decide

/-- C4 (amended): for every in-range, non-degenerate `(floors, rows,
columns)` the generator produces the force-patched `buildLayout`, and every
pre-patch cell follows `codeFractionPattern`: pillar cells
(`row % 7 = 0` and `column % 7 ∈ {0, 1}`) inactive, the first
`⌊columns/4⌋` columns bicycle, further columns up to (exclusive)
`⌊columns/2⌋` motorcycle, and all remaining columns automobile. -/
theorem C4_layout_amended (floors rows cols f r c : Nat)
    (hfl : 1 ≤ floors ∧ floors ≤ 8) (hrows : 1 ≤ rows ∧ rows ≤ 1000)
    (hcols : 1 ≤ cols ∧ cols ≤ 1000) (hnd : ¬(rows = 1 ∧ cols < 4))
    (hf : f < floors) (hr : r < rows) (hc : c < cols) :
    NewSpotLayout floors rows cols =
      .ok (forcePatch floors rows cols (buildLayout floors rows cols)) ∧
    layoutGet (buildLayout floors rows cols) f r c =
      some (codeFractionPattern cols r c) := by
  constructor
  · rw [NewSpotLayout, if_neg (by omega), if_neg (by omega),
      if_neg (by omega)]
  · rw [layoutGet, buildLayout]
    rw [List.getElem?_map, List.getElem?_range hf]
    simp only [Option.map_some', Option.some_bind]
    rw [List.getElem?_map, List.getElem?_range hr]
    simp only [Option.map_some', Option.some_bind]
    rw [List.getElem?_map, List.getElem?_range hc]
    simp only [Option.map_some', Option.some_inj]
    rw [layoutCell, if_neg hnd, codeFractionPattern]

theorem C4_layout_amended_witness :
    (1 ≤ 1 ∧ 1 ≤ 8) ∧ (1 ≤ 2 ∧ 2 ≤ 1000) ∧ (1 ≤ 6 ∧ 6 ≤ 1000) ∧
    ¬(2 = 1 ∧ 6 < 4) ∧
    (NewSpotLayout 1 2 6 = .ok (forcePatch 1 2 6 (buildLayout 1 2 6)) ∧
      layoutGet (buildLayout 1 2 6) 0 1 2 =
        some (codeFractionPattern 6 1 2)) :=
  ⟨by decide, by decide, by decide, by decide,
    C4_layout_amended 1 2 6 0 1 2 (by decide) (by decide) (by decide)
      (by decide) (by decide) (by decide) (by decide)⟩

/-- C5 counterexample, refuting both halves of the claim.  `ParseSpotID`
is built on `fmt.Sscanf "%d-%d-%d"`: the `%d` verb skips leading white
space, so `" 1-2-3"` — not of the exact `"{floor}-{row}-{column}"` form —
is accepted with value `(1, 2, 3)` instead of being rejected; and
`strconv.ParseInt`'s 64-bit range check makes the scan fail on
`"10000000000000000000-0-0"` (`10^19 > 2^63 - 1`), a string that *is* of
the exact form, so not every exact-form string parses to its encoded
integers either. -/
theorem C5_parse_counterexample :
    (ParseSpotID " 1-2-3".toList = .ok (1, 2, 3) ∧
      ¬exactSpotIDForm " 1-2-3".toList) ∧
    (ParseSpotID "10000000000000000000-0-0".toList =
        .error .invalidSpotID ∧
      exactSpotIDForm "10000000000000000000-0-0".toList) := by
  refine ⟨⟨by decide, ?_⟩, by decide,
    "10000000000000000000".toList, ['0'], ['0'],
    by decide, by decide, by decide, by decide⟩
  rintro ⟨d1, d2, d3, h1, h2, h3, heq⟩
  cases d1 with
  | nil => simp [isDigitStr] at h1
  | cons a t =>
    have hh := congrArg List.head? heq
    simp only [List.cons_append, List.head?_cons] at hh
    have hsp : (" 1-2-3".toList).head? = some ' ' := by decide
    rw [hsp] at hh
    have ha : a = ' ' := (Option.some_inj.mp hh).symm
    subst ha
    simp only [isDigitStr, Bool.and_eq_true] at h1
    have hdig := h1.2
    have hnd : (' ').isDigit = false := by decide
    rw [List.all_cons, hnd] at hdig
    simp at hdig

/-- C5 (amended): a restricted positive half holds: every string of the
exact form `"{floor}-{row}-{column}"` (three nonempty decimal digit
strings joined by dashes) whose components' values fit in a 64-bit int
(`< 2^63`) parses to the three encoded integers.  Outside that range the
`%d` verb fails with `strconv.ParseInt`'s range error, and the negative
half of the original claim is false as well: the scanner also accepts
leading `fmt` white space, an explicit sign, and arbitrary trailing
characters (see the counterexample for both). -/
theorem C5_parse_exact_form (d1 d2 d3 : Str) (h1 : isDigitStr d1 = true)
    (h2 : isDigitStr d2 = true) (h3 : isDigitStr d3 = true)
    (hb1 : digitStrVal d1 < 2 ^ 63) (hb2 : digitStrVal d2 < 2 ^ 63)
    (hb3 : digitStrVal d3 < 2 ^ 63) :
    ParseSpotID (d1 ++ '-' :: (d2 ++ '-' :: d3)) =
      .ok (digitStrVal d1, digitStrVal d2, digitStrVal d3) :=
  parseSpotID_exact d1 d2 d3 h1 h2 h3 hb1 hb2 hb3

theorem C5_parse_exact_form_witness :
    isDigitStr ['1'] = true ∧ isDigitStr ['2'] = true ∧
    isDigitStr ['3'] = true ∧ digitStrVal ['1'] < 2 ^ 63 ∧
    digitStrVal ['2'] < 2 ^ 63 ∧ digitStrVal ['3'] < 2 ^ 63 ∧
    ParseSpotID (['1'] ++ '-' :: (['2'] ++ '-' :: ['3'])) =
      .ok (digitStrVal ['1'], digitStrVal ['2'], digitStrVal ['3']) :=
  ⟨by decide, by decide, by decide, by decide, by decide, by decide,
    C5_parse_exact_form ['1'] ['2'] ['3'] (by decide) (by decide)
      (by decide) (by decide) (by decide) (by decide)⟩

/-- `ParkRaced` with no interference is exactly `Park`. -/
theorem parkRaced_id (p : ParkingLot) (vt : VehicleType) (num : Str) :
    p.ParkRaced vt num id = p.Park vt num := rfl

/-- C6: the code does not retry after losing the scan/occupy race.  In
`lotD` (one floor, one row `[bicycle, motorcycle, automobile,
automobile]`), a `Park` of automobile `CAR1` scans cell `(0,0,2)`; a racing
`Park` of `CAR2` commits to that same cell before the occupy.  The occupy
then fails and `Park` surfaces the wrapped `OCCUPATION_ERROR` to the caller
even though a fresh scan of the resulting state still finds the compatible
free spot `(0,0,3)` — contradicting the required retry-then-NoSpace
behaviour. -/
theorem C6_race_not_retried :
    (lotD.ParkRaced .automobile "CAR1".toList
        (fun l => (l.Park .automobile "CAR2".toList).2)).1 =
      .error (.wrapped "OCCUPATION_ERROR".toList .spotAlreadyOccupied) ∧
    lotFirstAvail .automobile
      ((lotD.ParkRaced .automobile "CAR1".toList
          (fun l => (l.Park .automobile "CAR2".toList).2)).2).floors =
      some (0, 0, 3) := by decide

/-- C7 counterexample: the mismatch failure of `Vacate` is the plain
`fmt.Errorf` error, which carries no `ParkingError` code (`Err.code` is
`none`), so it is not distinguishable by kind — e.g. from the codeless
`ErrSpotInactive` sentinel — while genuine taxonomy errors such as
`VehicleNotFound` do carry their code.  The taxonomy's `VEHICLE_MISMATCH`
code is never attached to it. -/
theorem C7_mismatch_counterexample :
    (spotW.Vacate "CAR2".toList).1 =
      some (.vacateMismatch "CAR1".toList "CAR2".toList) ∧
    ((spotW.Vacate "CAR2".toList).1.map Err.code) = some none ∧
    Err.code .spotInactive = none ∧
    Err.code (.vehicleNotFound "CAR2".toList) =
      some "VEHICLE_NOT_FOUND".toList := by decide

/-- C7 (amended): for every active spot occupied by `o` and every
`vehicleNumber` whose normalization differs from `o`, `Vacate` fails and
the spot remains occupied by `o` unchanged — but the error is the plain
formatted mismatch value whose `ParkingError` code is `none`, not a
taxonomy kind. -/
theorem C7_mismatch_plain_error (s : ParkingSpot) (num : Str)
    (ha : s.type.IsActive = true) (ho : s.isOccupied = true)
    (hne : NormalizeVehicleNumber num ≠ s.vehicleNumber) :
    s.Vacate num =
      (some (.vacateMismatch s.vehicleNumber (NormalizeVehicleNumber num)),
        s) ∧
    Err.code (.vacateMismatch s.vehicleNumber (NormalizeVehicleNumber num)) =
      none := by
  refine ⟨?_, rfl⟩
  rw [ParkingSpot.Vacate, if_neg (by simp [ha]), if_neg (by simp [ho]),
    if_pos hne]

theorem C7_mismatch_plain_error_witness :
    spotW.type.IsActive = true ∧ spotW.isOccupied = true ∧
    NormalizeVehicleNumber "CAR2".toList ≠ spotW.vehicleNumber ∧
    (spotW.Vacate "CAR2".toList =
        (some (.vacateMismatch spotW.vehicleNumber
          (NormalizeVehicleNumber "CAR2".toList)), spotW) ∧
      Err.code (.vacateMismatch spotW.vehicleNumber
        (NormalizeVehicleNumber "CAR2".toList)) = none) :=
  ⟨rfl, rfl, by decide,
    C7_mismatch_plain_error spotW "CAR2".toList rfl rfl (by decide)⟩

/-- C8: whenever `Unpark spotID num` succeeds, repeating the call with the
same two arguments on the resulting state fails with `VehicleNotFound`:
the first call removed the directory entry for the normalized number. -/
theorem C8_unpark_twice (p : ParkingLot) (sid num : Str)
    (h : (p.Unpark sid num).1 = none) :
    ((p.Unpark sid num).2.Unpark sid num).1 =
      some (.vehicleNotFound num) := by
  have hv : ValidateVehicleNumber num = none := by
    cases hv : ValidateVehicleNumber num with
    | some e =>
      rw [ParkingLot.Unpark] at h
      rw [hv] at h
      simp at h
    | none => rfl
  have hpv2 : ((p.Unpark sid num).2).parkedVehicles =
      mapDelete (NormalizeVehicleNumber num) p.parkedVehicles := by
    simp only [ParkingLot.Unpark, hv] at h ⊢
    cases hload : mapLoad (NormalizeVehicleNumber num) p.parkedVehicles with
    | none => simp only [hload] at h; simp at h
    | some currentSid =>
      simp only [hload] at h ⊢
      by_cases hne : currentSid ≠ sid
      · rw [if_pos hne] at h; simp at h
      · rw [if_neg hne] at h
        rw [if_neg hne]
        cases hget : p.GetSpotByID sid with
        | error e => simp only [hget] at h; simp at h
        | ok spot =>
          simp only [hget] at h ⊢
          cases hvac : spot.Vacate (NormalizeVehicleNumber num) with
          | mk oe spot2 =>
            simp only [hvac] at h ⊢
            cases oe with
            | some e => simp at h
            | none =>
              cases hps : ParseSpotID sid with
              | ok t =>
                simp only [hps]
                cases hh : mapLoad (NormalizeVehicleNumber num)
                    (updateSpotByFloorNum p t.1 t.2.1 t.2.2
                      spot2).vehicleHistory with
                | some hist => simp only [hh]; rfl
                | none => simp only [hh]; rfl
              | error e2 =>
                simp only [hps]
                cases hh : mapLoad (NormalizeVehicleNumber num)
                    p.vehicleHistory with
                | some hist => simp only [hh]
                | none => simp only [hh]
  have hload2 : mapLoad (NormalizeVehicleNumber num)
      ((p.Unpark sid num).2).parkedVehicles = none := by
    rw [hpv2, mapLoad_delete_self]
  generalize (p.Unpark sid num).2 = q at hload2 ⊢
  simp only [ParkingLot.Unpark, hv, hload2]

theorem C8_unpark_twice_witness :
    (lotB.Unpark "0-0-0".toList "KA 1".toList).1 = none ∧
    ((lotB.Unpark "0-0-0".toList "KA 1".toList).2.Unpark "0-0-0".toList
        "KA 1".toList).1 = some (.vehicleNotFound "KA 1".toList) :=
  ⟨by decide, C8_unpark_twice lotB "0-0-0".toList "KA 1".toList (by decide)⟩

/-- C9: the spot-level operations are atomic: whenever `Occupy` or `Vacate`
returns an error, the returned spot state is exactly the input spot —
occupancy flag and stored occupant included; state changes only on
success. -/
theorem C9_spot_ops_atomic (s : ParkingSpot) (num : Str) :
    (∀ e : Err, (s.Occupy num).1 = some e → (s.Occupy num).2 = s) ∧
    (∀ e : Err, (s.Vacate num).1 = some e → (s.Vacate num).2 = s) := by
  constructor
  · intro e he
    rw [ParkingSpot.Occupy] at he ⊢
    by_cases h1 : (!s.type.IsActive) = true
    · rw [if_pos h1]
    · rw [if_neg h1] at he ⊢
      by_cases h2 : s.isOccupied = true
      · rw [if_pos h2]
      · rw [if_neg h2] at he ⊢
        cases hvv : ValidateVehicleNumber num with
        | some e2 => rfl
        | none => rw [hvv] at he; simp at he
  · intro e he
    rw [ParkingSpot.Vacate] at he ⊢
    by_cases h1 : (!s.type.IsActive) = true
    · rw [if_pos h1]
    · rw [if_neg h1] at he ⊢
      by_cases h2 : (!s.isOccupied) = true
      · rw [if_pos h2]
      · rw [if_neg h2] at he ⊢
        by_cases h3 : NormalizeVehicleNumber num ≠ s.vehicleNumber
        · rw [if_pos h3]
        · rw [if_neg h3] at he; simp at he

theorem C9_spot_ops_atomic_witness :
    (spotW.Occupy "CAR2".toList).1 = some .spotAlreadyOccupied ∧
    (spotW.Occupy "CAR2".toList).2 = spotW ∧
    (spotW.Vacate "CAR2".toList).1 =
      some (.vacateMismatch "CAR1".toList "CAR2".toList) ∧
    (spotW.Vacate "CAR2".toList).2 = spotW :=
  ⟨by decide,
    (C9_spot_ops_atomic spotW "CAR2".toList).1 .spotAlreadyOccupied
      (by decide),
    by decide,
    (C9_spot_ops_atomic spotW "CAR2".toList).2
      (.vacateMismatch "CAR1".toList "CAR2".toList) (by decide)⟩

/-- C10: `SearchVehicle` validates before any lookup: for every input the
validator rejects, it fails with that `InvalidVehicleNumber` error on
*every* lot state (so no directory or history lookup can influence the
result); and a `VehicleNotFound` outcome entails that validation passed. -/
theorem C10_search_validates_first (p : ParkingLot) (num : Str) :
    (∀ e : Err, ValidateVehicleNumber num = some e →
      p.SearchVehicle num = .error e ∧
        ∃ reason, e = .invalidVehicleNumber num reason) ∧
    (p.SearchVehicle num = .error (.vehicleNotFound num) →
      ValidateVehicleNumber num = none) := by
  constructor
  · intro e hv
    constructor
    · rw [ParkingLot.SearchVehicle, hv]
    · rw [ValidateVehicleNumber] at hv
      by_cases h1 : trimSpace num = []
      · rw [if_pos h1] at hv
        injection hv with hv
        exact ⟨.empty, hv.symm⟩
      · rw [if_neg h1] at hv
        by_cases h2 : matchesVehiclePattern num = true
        · rw [if_pos h2] at hv
          simp at hv
        · rw [if_neg h2] at hv
          injection hv with hv
          exact ⟨.format, hv.symm⟩
  · intro hs
    cases hv : ValidateVehicleNumber num with
    | none => rfl
    | some e =>
      rw [ParkingLot.SearchVehicle] at hs
      rw [hv] at hs
      injection hs with hs
      rw [ValidateVehicleNumber] at hv
      by_cases h1 : trimSpace num = []
      · rw [if_pos h1] at hv
        injection hv with hv
        rw [← hv] at hs
        exact absurd hs (by simp)
      · rw [if_neg h1] at hv
        by_cases h2 : matchesVehiclePattern num = true
        · rw [if_pos h2] at hv
          simp at hv
        · rw [if_neg h2] at hv
          injection hv with hv
          rw [← hv] at hs
          exact absurd hs (by simp)

theorem C10_search_validates_first_witness :
    ValidateVehicleNumber "".toList =
      some (.invalidVehicleNumber "".toList .empty) ∧
    (lotA.SearchVehicle "".toList =
        .error (.invalidVehicleNumber "".toList .empty) ∧
      ∃ reason, (Err.invalidVehicleNumber "".toList .empty) =
        .invalidVehicleNumber "".toList reason) :=
  ⟨by decide,
    (C10_search_validates_first lotA "".toList).1
      (.invalidVehicleNumber "".toList .empty) (by decide)⟩

end Parking
